import Mathlib

/-!
Shallow embedding of the settlement/reconciliation core of the `bux`
transaction engine, together with theorems checking its natural-language
specification against the code.

Sources embedded (Go):
  * `model_sync_transactions.go` — the per-transaction synchronization
    record, its creation (`newSyncTransaction`), the three processing
    pipelines (`processBroadcastTransaction`, `processSyncTransaction`,
    `processP2PTransaction`), the paymail notifier
    (`notifyPaymailProviders`) and the failure helper
    (`bailAndSaveSyncTransaction`).
  * `model_merkle_proof.go` — `ToCompoundMerklePath`, `offsetPair`,
    `parrentOffset`.
  * `beef_tx_sorting.go` — `kahnTopologicalSortTransactions` and its
    helpers.

Modelling conventions:
  * Go time stamps are abstract `Nat` instants supplied by the
    environment (`now`).
  * Go `error` return values are `Option String` / `Except String`;
    `none` / `.ok` is the `nil` error.
  * External collaborators (datastore reads, saves, the chain-state
    broadcaster and query client, the paymail client) are modelled as an
    explicit environment record holding the outcome each call would
    produce during one processing pass.  Persistence writes are logged as
    a list of attempted-save snapshots so that theorems can speak about
    what was persisted.
  * Go maps are modelled as association lists in insertion order
    (first occurrence wins as the entry position, writes update in
    place); Go map iteration order is unspecified, insertion order is the
    deterministic refinement used here.
  * The distributed lock manager and the panic/recover wrappers are
    concurrency machinery outside a shallow embedding; every pipeline
    function below models one processing attempt with the lock already
    held.  Where a recovered panic makes the Go function return a `nil`
    error mid-way, the embedding returns with the state reached at that
    point.
-/

namespace Bux

/-! ### Association-list model of Go maps -/

/-- Write `m[k] = v` into an association list: the first entry with key
`k` is overwritten in place, otherwise the entry is appended (Go map
assignment, with insertion order as the deterministic stand-in for Go's
unspecified iteration order). -/
def mapSet {β : Type} : List (String × β) → String → β → List (String × β)
  | [], k, v => [(k, v)]
  | (p :: rest), k, v =>
      if p.1 = k then (k, v) :: rest else p :: mapSet rest k v

/-- Read `m[k]` with the Go zero-value default. -/
def mapGetD (m : List (String × Int)) (k : String) : Int :=
  (m.lookup k).getD 0

/-- Go `m[k] += d` (reading a missing key yields the zero value, so the
increment inserts the key). -/
def mapAdd (m : List (String × Int)) (k : String) (d : Int) : List (String × Int) :=
  mapSet m k (mapGetD m k + d)

/-! ### Data model: statuses, configuration, results

The `SyncStatus` / `SyncConfig` / `SyncResult(s)` declarations and the
`syncAction*` / provider constants are declared in repository files not
included under the provided sources; they are modelled from the spec
(§3, §4.1) and from how the provided code uses them. -/

/-- Modelled from the spec: per-track synchronization status, one of
Skipped / Pending / Ready / Complete / Error (spec §4.1; the `SyncStatus`
constant declarations are outside the provided source files). -/
inductive SyncStatus
  | skipped
  | pending
  | ready
  | complete
  | error
  deriving DecidableEq, Repr

/-- Modelled from the spec: the sync configuration flag set
{broadcast, broadcastInstant, paymailP2P, syncOnChain}, fixed at
creation (spec §3; declaration outside the provided source files). -/
structure SyncConfig where
  broadcast : Bool
  broadcastInstant : Bool
  paymailP2P : Bool
  syncOnChain : Bool
  deriving DecidableEq, Repr

/-- Modelled from the spec: one append-only result entry
{action, executedAt, provider, statusMessage} (spec §3; declaration
outside the provided source files). -/
structure SyncResult where
  action : String
  executedAt : Nat
  provider : String
  statusMessage : String
  deriving DecidableEq, Repr

/-- Modelled from the spec: the results container with the most recent
human-readable message and the ordered result list (spec §3; declaration
outside the provided source files). -/
structure SyncResults where
  lastMessage : String
  results : List SyncResult
  deriving DecidableEq, Repr

/-- Modelled from the spec: the sync action names (spec §3: action ∈
{broadcast, sync, p2p}); the string constants are declared outside the
provided source files. -/
def syncActionSync : String := "sync"

/-- Modelled from the spec: the p2p action name (spec §3). -/
def syncActionP2P : String := "p2p"

/-- Modelled from the spec: the broadcast action name (spec §3). -/
def syncActionBroadcast : String := "broadcast"

/-- Modelled from the spec: the paymail output resolution kind marking a
peer-to-peer output (spec §4.5; constant declared outside the provided
source files). -/
def ResolutionTypeP2P : String := "p2p"

/-- Modelled from the spec: the provider name reported by the chain
query collaborator (`chainstate.ProviderBroadcastClient`, declared
outside the provided source files). -/
def ProviderBroadcastClient : String := "broadcast-client"

/-- Modelled from the spec: the distinct "transaction is missing" error
value (`ErrMissingTransaction`, declared outside the provided source
files). -/
def ErrMissingTransaction : String := "transaction is missing"

/-! ### Merkle proof and compound Merkle path (`model_merkle_proof.go`) -/

/-- `MerkleProof` — {txOrID, index (uint64 leaf position), nodes
(sibling hashes leaf to root)} (`model_merkle_proof.go`, via
`bc.MerkleProof`). -/
structure MerkleProof where
  txOrID : String
  index : Nat
  nodes : List String
  deriving DecidableEq, Repr

/-- `CompoundMerklePath` — ordered per-level maps of hash → offset. -/
abbrev CompoundMerklePath := List (List (String × Nat))

/-- `offsetPair` (`model_merkle_proof.go:70-75`): the sibling offset of
a binary-tree position.  Go works in `uint64`; the wrap-around of `+ 1`
is kept explicit (it can never fire, since `+ 1` applies only to even
offsets). -/
def offsetPair (offset : Nat) : Nat :=
  if offset % 2 = 0 then (offset + 1) % 2 ^ 64 else offset - 1

/-- `parrentOffset` (`model_merkle_proof.go:77-79`, source spelling):
integer halving then the sibling at the parent level. -/
def parrentOffset (offset : Nat) : Nat :=
  offsetPair (offset / 2)

/-- The `for i := 1; i <= height-1` loop of `ToCompoundMerklePath`:
one singleton map per remaining node, with the running offset updated by
`parrentOffset` before each level. -/
def cmpLevels : List String → Nat → CompoundMerklePath
  | [], _ => []
  | node :: rest, offset =>
      let offset2 := parrentOffset offset
      [(node, offset2)] :: cmpLevels rest offset2

/-- `ToCompoundMerklePath` (`model_merkle_proof.go:50-68`): empty for an
empty node list; otherwise level 0 maps `txOrID ↦ index` and
`nodes[0] ↦ offsetPair index` (Go map writes, i.e. overwriting on a key
collision), and each later level maps that node to the running offset. -/
def MerkleProof.ToCompoundMerklePath (m : MerkleProof) : CompoundMerklePath :=
  match m.nodes with
  | [] => []
  | n0 :: rest =>
      let leafMap := mapSet (mapSet [] m.txOrID m.index) n0 (offsetPair m.index)
      leafMap :: cmpLevels rest m.index

/-! ### Transactions, drafts and the sync record -/

/-- `UtxoPointer` — the previous-transaction reference of an input. -/
structure UtxoPointer where
  transactionID : String
  deriving DecidableEq, Repr

/-- A draft-transaction input (`TransactionInput` embeds `UtxoPointer`). -/
structure TransactionInput where
  utxoPointer : UtxoPointer
  deriving DecidableEq, Repr

/-- `PaymailP4` — the paymail P2P routing data of an output; only the
fields read by the embedded code are kept. -/
structure PaymailP4 where
  resolutionType : String
  receiveEndpoint : String
  deriving DecidableEq, Repr

/-- A draft-transaction output; `paymailP4` is the Go `*PaymailP4`
pointer (`none` = nil). -/
structure TransactionOutput where
  paymailP4 : Option PaymailP4
  deriving DecidableEq, Repr

/-- `TransactionConfig` — the draft configuration; only inputs and
outputs are read by the embedded code. -/
structure TransactionConfig where
  inputs : List TransactionInput
  outputs : List TransactionOutput
  deriving DecidableEq, Repr

/-- `DraftTransaction` — only the configuration is read by the embedded
code. -/
structure DraftTransaction where
  configuration : TransactionConfig
  deriving DecidableEq, Repr

/-- `Transaction` — the fields read or written by the embedded code.
`draftTransaction` is the Go `*DraftTransaction` cache; the topological
sorter dereferences it unconditionally, so it is kept total here (a nil
pointer would panic in the source as well). -/
structure Transaction where
  id : String
  hex : String
  draftID : String
  blockHash : String
  blockHeight : Nat
  merkleProof : MerkleProof
  draftTransaction : DraftTransaction
  deriving DecidableEq, Repr

/-- An incoming/unconfirmed transaction variant; only the raw hex is
read by the embedded code. -/
structure IncomingTransaction where
  hex : String
  deriving DecidableEq, Repr

/-- `SyncTransaction` (`model_sync_transactions.go:27-42`): the sync
record.  `lastAttempt` is the nullable timestamp, `transaction` the
transient non-persisted reference.  The base-model bookkeeping (gorm
metadata, model options) is framework plumbing and not modelled. -/
structure SyncTransaction where
  id : String
  configuration : SyncConfig
  lastAttempt : Option Nat
  results : SyncResults
  broadcastStatus : SyncStatus
  p2pStatus : SyncStatus
  syncStatus : SyncStatus
  transaction : Option Transaction
  deriving DecidableEq, Repr

/-- `newSyncTransaction` (`model_sync_transactions.go:45-77`): a nil
configuration yields a nil record (no error value is produced); else the
three track statuses are derived from the flags and all other fields
start at their zero values. -/
def newSyncTransaction (txID : String) (config : Option SyncConfig) :
    Option SyncTransaction :=
  match config with
  | none => none
  | some cfg =>
      let bs := if cfg.broadcast then SyncStatus.ready else SyncStatus.skipped
      let ps := if cfg.paymailP2P then SyncStatus.pending else SyncStatus.skipped
      let ss := if cfg.syncOnChain then SyncStatus.ready else SyncStatus.skipped
      some {
        id := txID
        configuration := cfg
        lastAttempt := none
        results := { lastMessage := "", results := [] }
        broadcastStatus := bs
        p2pStatus := ps
        syncStatus := ss
        transaction := none
      }

/-- `bailAndSaveSyncTransaction` (`model_sync_transactions.go:806-831`),
as a pure record update: route the status to the track named by the
action string, stamp `lastAttempt`, set the last message and append one
result entry.  (The trailing ignored `Save` is logged by the callers in
the pipeline embeddings below.) -/
def bailAndSaveSyncTransaction (syncTx : SyncTransaction) (status : SyncStatus)
    (action provider message : String) (now : Nat) : SyncTransaction :=
  let s1 :=
    if action = syncActionSync then { syncTx with syncStatus := status }
    else if action = syncActionP2P then { syncTx with p2pStatus := status }
    else if action = syncActionBroadcast then { syncTx with broadcastStatus := status }
    else syncTx
  { s1 with
    lastAttempt := some now
    results := {
      lastMessage := message
      results := s1.results.results ++
        [{ action := action, executedAt := now, provider := provider,
           statusMessage := message }] } }

/-! ### The processing environment

One processing pass consults external collaborators (datastore,
chain-state client, paymail client).  Their outcomes for the pass are
collected in an environment record; each field is the value the
corresponding call would return. -/

/-- Outcome of `Chainstate().QueryTransaction`: found with on-chain
info, the distinguished not-found error, or any other failure. -/
inductive QueryOutcome
  | found (blockHash : String) (blockHeight : Nat) (merkleProof : MerkleProof)
  | notFound
  | failed (msg : String)
  deriving DecidableEq, Repr

/-- The external outcomes for one processing pass. -/
structure PipeEnv where
  /-- the current wall-clock instant (`time.Now()`) -/
  now : Nat
  /-- `getTransactionByID` — datastore failure, or nil-or-found -/
  getTransactionByID : Except String (Option Transaction)
  /-- `getIncomingTransactionByID` — datastore failure, or nil-or-found -/
  getIncomingTransactionByID : Except String (Option IncomingTransaction)
  /-- `Chainstate().Broadcast` — (provider, error) -/
  broadcastResult : String × Option String
  /-- whether `processIncomingTransaction` succeeds -/
  processIncomingOk : Bool
  /-- the re-load of the transaction after incoming processing -/
  reGetTransaction : Option Transaction
  /-- `Chainstate().QueryTransaction` outcome -/
  queryResult : QueryOutcome
  /-- `transaction.Save` failure, if any -/
  saveTxErr : Option String
  /-- `syncTx.Save` failure, if any -/
  saveSyncErr : Option String
  /-- `getDraftTransactionID` — datastore failure, or nil-or-found -/
  getDraftTransactionID : Except String (Option DraftTransaction)
  /-- `finalizeP2PTransaction` per paymail output — remote tx id or error -/
  finalizeP2P : PaymailP4 → Except String String

/-- Result of one pipeline attempt: the Go return value (`none` = nil
error), the final in-memory record, and the snapshots handed to
`syncTx.Save` / `transaction.Save`, in call order. -/
structure PipeOut where
  ret : Option String
  syncTx : SyncTransaction
  savedSync : List SyncTransaction
  savedTx : List Transaction
  deriving Repr

/-! ### Confirmation poller (`processSyncTransaction`) -/

/-- `processSyncTransaction` (`model_sync_transactions.go:621-705`):
query the chain; on the not-found error bail back to Ready (informational
result); on any other query failure return the error unchanged; on found,
attach block data and proof to the transaction, save it (hard failure
bails to Error), then mark the sync track Complete, append a success
result (no trimming) and save the record. -/
def processSyncTransaction (env : PipeEnv) (syncTx : SyncTransaction)
    (transaction : Option Transaction) : PipeOut :=
  match env.queryResult with
  | .notFound =>
      let s := bailAndSaveSyncTransaction syncTx .ready syncActionSync "all"
        "transaction not found on-chain" env.now
      { ret := none, syncTx := s, savedSync := [s], savedTx := [] }
  | .failed msg =>
      { ret := some msg, syncTx := syncTx, savedSync := [], savedTx := [] }
  | .found blockHash blockHeight merkleProof =>
      let tres : Except String (Option Transaction) :=
        match transaction with
        | some t => .ok (some t)
        | none => env.getTransactionByID
      match tres with
      | .error e =>
          { ret := some e, syncTx := syncTx, savedSync := [], savedTx := [] }
      | .ok none =>
          { ret := some ErrMissingTransaction, syncTx := syncTx,
            savedSync := [], savedTx := [] }
      | .ok (some t) =>
          let t2 := { t with blockHash := blockHash, blockHeight := blockHeight,
                             merkleProof := merkleProof }
          let message := "transaction was found on-chain by " ++ ProviderBroadcastClient
          match env.saveTxErr with
          | some e =>
              let s := bailAndSaveSyncTransaction syncTx .error syncActionSync
                "internal" e env.now
              { ret := some e, syncTx := s, savedSync := [s], savedTx := [t2] }
          | none =>
              let s1 := { syncTx with
                syncStatus := SyncStatus.complete
                results := {
                  lastMessage := message
                  results := syncTx.results.results ++
                    [{ action := syncActionSync, executedAt := env.now,
                       provider := ProviderBroadcastClient,
                       statusMessage := message }] } }
              match env.saveSyncErr with
              | some e =>
                  let s2 := bailAndSaveSyncTransaction s1 .error syncActionSync
                    "internal" e env.now
                  { ret := some e, syncTx := s2, savedSync := [s1, s2],
                    savedTx := [t2] }
              | none =>
                  { ret := none, syncTx := s1, savedSync := [s1], savedTx := [t2] }

/-! ### P2P notifier (`processP2PTransaction`, `notifyPaymailProviders`) -/

/-- The output loop of `notifyPaymailProviders`
(`model_sync_transactions.go:853-872`): for every draft output with a
P2P paymail resolution, finalize against the provider; the first failure
aborts the whole pass, discarding the attempts collected so far. -/
def notifyLoop (env : PipeEnv) : List TransactionOutput → List SyncResult →
    Except String (List SyncResult)
  | [], attempts => .ok attempts
  | out :: rest, attempts =>
      match out.paymailP4 with
      | none => notifyLoop env rest attempts
      | some p4 =>
          if p4.resolutionType = ResolutionTypeP2P then
            match env.finalizeP2P p4 with
            | .error e => .error e
            | .ok txID =>
                notifyLoop env rest (attempts ++
                  [{ action := syncActionP2P, executedAt := env.now,
                     provider := p4.receiveEndpoint,
                     statusMessage := "success: " ++ txID }])
          else notifyLoop env rest attempts

/-- `notifyPaymailProviders` (`model_sync_transactions.go:834-874`):
load the draft (missing draft is an error), then run the output loop. -/
def notifyPaymailProviders (env : PipeEnv) (transaction : Transaction) :
    Except String (List SyncResult) :=
  match env.getDraftTransactionID with
  | .error e => .error e
  | .ok none => .error ("draft not found: " ++ transaction.draftID)
  | .ok (some draftTx) => notifyLoop env draftTx.configuration.outputs []

/-- `processP2PTransaction` (`model_sync_transactions.go:739-804`):
resolve the transaction; an empty draft id bails to Complete
(vacuous success); a notifier failure bails the p2p track back to Ready
and returns the error (no collected result is committed); on success the
collected results are appended (no trimming), the track is marked
Complete and the record saved.  (When the loaded transaction is nil the
Go code dereferences it, panics, and the recover turns the attempt into
a plain nil-error return with the record untouched.) -/
def processP2PTransaction (env : PipeEnv) (syncTx : SyncTransaction)
    (transaction : Option Transaction) : PipeOut :=
  let tres : Except String (Option Transaction) :=
    match transaction with
    | some t => .ok (some t)
    | none => env.getTransactionByID
  match tres with
  | .error e =>
      { ret := some e, syncTx := syncTx, savedSync := [], savedTx := [] }
  | .ok none =>
      { ret := none, syncTx := syncTx, savedSync := [], savedTx := [] }
  | .ok (some t) =>
      if t.draftID = "" then
        let s := bailAndSaveSyncTransaction syncTx .complete syncActionP2P "all"
          "no draft found, cannot complete p2p" env.now
        { ret := none, syncTx := s, savedSync := [s], savedTx := [] }
      else
        match notifyPaymailProviders env t with
        | .error e =>
            let s := bailAndSaveSyncTransaction syncTx .ready syncActionP2P "" e
              env.now
            { ret := some e, syncTx := s, savedSync := [s], savedTx := [] }
        | .ok results =>
            let s1 :=
              if 0 < results.length then
                { syncTx with results := {
                    lastMessage := "notified " ++ toString results.length ++
                      " paymail provider(s)"
                    results := syncTx.results.results ++ results } }
              else syncTx
            let s2 := { s1 with p2pStatus := SyncStatus.complete }
            match env.saveSyncErr with
            | some e =>
                let sb := bailAndSaveSyncTransaction s2 .error syncActionP2P
                  "internal" e env.now
                { ret := some e, syncTx := sb, savedSync := [s2, sb], savedTx := [] }
            | none =>
                { ret := none, syncTx := s2, savedSync := [s2], savedTx := [] }

/-! ### Broadcast pipeline (`processBroadcastTransaction`) -/

/-- The transaction/hex resolution of `processBroadcastTransaction`
(`model_sync_transactions.go:510-535`) when the in-memory reference is
absent: load by id, else fall back to the incoming variant, else fail.
Yields (transaction, incoming, txHex). -/
def resolveBroadcastHex (env : PipeEnv) (txID : String) :
    Except String (Option Transaction × Option IncomingTransaction × String) :=
  match env.getTransactionByID with
  | .error e => .error e
  | .ok (some t) => .ok (some t, none, t.hex)
  | .ok none =>
      match env.getIncomingTransactionByID with
      | .error e => .error e
      | .ok none => .error ("transaction was expected but not found, using ID: " ++ txID)
      | .ok (some inc) => .ok (none, some inc, inc.hex)

/-- `processBroadcastTransaction` (`model_sync_transactions.go:488-618`):
resolve the raw transaction (preferring the in-memory reference), call
the broadcaster; a broadcaster failure bails the broadcast track to
Error and returns nil.  On success: optionally process the incoming
variant and re-load, then mark the broadcast track Complete, stamp
`lastAttempt`, trim the results to drop the oldest entry when at least
19 are already present, append the success result, flip Pending → Ready
on the p2p and sync tracks, and save (a save failure bails to Error).
Finally, when a transaction object is at hand, chain into the P2P
pipeline (p2p Ready) or the confirmation pipeline (p2p Skipped and sync
Ready).  The fire-and-forget notification and the propagation sleep are
not modelled. -/
def processBroadcastTransaction (env : PipeEnv) (syncTx : SyncTransaction) : PipeOut :=
  let rres : Except String (Option Transaction × Option IncomingTransaction × String) :=
    match syncTx.transaction with
    | some t => if t.hex ≠ "" then .ok (some t, none, t.hex)
                else resolveBroadcastHex env syncTx.id
    | none => resolveBroadcastHex env syncTx.id
  match rres with
  | .error e =>
      { ret := some e, syncTx := syncTx, savedSync := [], savedTx := [] }
  | .ok (transaction0, incoming, _txHex) =>
      match env.broadcastResult with
      | (provider, some e) =>
          let s := bailAndSaveSyncTransaction syncTx .error syncActionBroadcast
            provider ("broadcast error: " ++ e) env.now
          { ret := none, syncTx := s, savedSync := [s], savedTx := [] }
      | (provider, none) =>
          let message := "broadcast success"
          let transaction1 : Option Transaction :=
            match incoming with
            | none => transaction0
            | some _ =>
                if env.processIncomingOk then env.reGetTransaction else transaction0
          let s1 := { syncTx with
            broadcastStatus := SyncStatus.complete
            lastAttempt := some env.now
            results := {
              lastMessage := message
              results :=
                (if 19 ≤ syncTx.results.results.length
                 then syncTx.results.results.drop 1
                 else syncTx.results.results) ++
                [({ action := syncActionBroadcast, executedAt := env.now,
                    provider := provider, statusMessage := message } : SyncResult)] } }
          let s2 := { s1 with
            p2pStatus := if s1.p2pStatus = SyncStatus.pending then SyncStatus.ready
                         else s1.p2pStatus }
          let s3 := { s2 with
            syncStatus := if s2.syncStatus = SyncStatus.pending then SyncStatus.ready
                          else s2.syncStatus }
          match env.saveSyncErr with
          | some e =>
              let sb := bailAndSaveSyncTransaction s3 .error syncActionBroadcast
                "internal" e env.now
              { ret := some e, syncTx := sb, savedSync := [s3, sb], savedTx := [] }
          | none =>
              match transaction1 with
              | some t =>
                  if s3.p2pStatus = SyncStatus.ready then
                    let out := processP2PTransaction env s3 (some t)
                    { out with savedSync := s3 :: out.savedSync }
                  else if s3.p2pStatus = SyncStatus.skipped ∧
                          s3.syncStatus = SyncStatus.ready then
                    let out := processSyncTransaction env s3 (some t)
                    { out with savedSync := s3 :: out.savedSync }
                  else
                    { ret := none, syncTx := s3, savedSync := [s3], savedTx := [] }
              | none =>
                  { ret := none, syncTx := s3, savedSync := [s3], savedTx := [] }

/-! ### Dependency topological sorter (`beef_tx_sorting.go`)

The working queue of Kahn's algorithm is a Go slice; the in-degree map
and the transaction index are Go maps (association lists here, see
above).  The `for len(queue) > 0` loop is modelled with explicit fuel;
the top-level entry point supplies fuel strictly larger than the number
of iterations any run can take (one transaction is appended per
iteration, and — as proved below for the batches the claims quantify
over — each id enters the queue at most once), and running out of fuel
is reported as a distinct outcome so that it can never be mistaken for a
result of the source program.  Dequeuing an id that is missing from the
transaction index makes the Go code append a nil `*Transaction` and
immediately dereference it in `removeTxFromIncomingEdges` — a panic,
modelled as the `.error "panic: ..."` outcome. -/

/-- The previous-transaction ids referenced by the inputs of the
transaction's draft (`tx.draftTransaction.Configuration.Inputs[i].UtxoPointer.TransactionID`). -/
def txInputIDs (tx : Transaction) : List String :=
  tx.draftTransaction.configuration.inputs.map (fun i => i.utxoPointer.transactionID)

/-- `calculateIncomingEdges` (`beef_tx_sorting.go:37-43`): for every
input of every transaction, `inDegree[previousTxID]++` — note that Go
map increment inserts ids that are not in the batch. -/
def calculateIncomingEdges (inDegree : List (String × Int))
    (transactions : List Transaction) : List (String × Int) :=
  transactions.foldl
    (fun acc tx => (txInputIDs tx).foldl (fun m k => mapAdd m k 1) acc) inDegree

/-- `getTxWithZeroIncomingEdges` (`beef_tx_sorting.go:45-55`): the ids
whose in-degree is zero, in map iteration order. -/
def getTxWithZeroIncomingEdges (incomingEdgesMap : List (String × Int)) : List String :=
  (incomingEdgesMap.filter (fun p => p.2 = 0)).map (fun p => p.1)

/-- `removeTxFromIncomingEdges` (`beef_tx_sorting.go:57-68`): decrement
the in-degree of every id referenced by the transaction's inputs,
enqueueing an id the moment its count reaches zero. -/
def removeTxFromIncomingEdges (tx : Transaction) (incomingEdgesMap : List (String × Int))
    (zeroIncomingEdgeQueue : List String) : List (String × Int) × List String :=
  (txInputIDs tx).foldl
    (fun (acc : List (String × Int) × List String) neighborID =>
      let m2 := mapAdd acc.1 neighborID (-1)
      if mapGetD m2 neighborID = 0 then (m2, acc.2 ++ [neighborID])
      else (m2, acc.2))
    (incomingEdgesMap, zeroIncomingEdgeQueue)

/-- `prepareSortStructures` (`beef_tx_sorting.go:21-35`): index the
batch by id, zero the in-degree of every batch id, count incoming edges
and seed the zero-in-degree queue. -/
def prepareSortStructures (dag : List Transaction) :
    List (String × Transaction) × List (String × Int) × List String :=
  let txById := dag.foldl (fun acc tx => mapSet acc tx.id tx) []
  let inDeg0 := dag.foldl (fun acc tx => mapSet acc tx.id 0) []
  let incomingEdgesMap := calculateIncomingEdges inDeg0 dag
  (txById, incomingEdgesMap, getTxWithZeroIncomingEdges incomingEdgesMap)

/-- `reverseInPlace` (`beef_tx_sorting.go:70-74`): the two-pointer
in-place swap loop reverses the slice. -/
def reverseInPlace (collection : List Transaction) : List Transaction :=
  collection.reverse

/-- The `for len(zeroIncomingEdgeQueue) > 0` loop of
`kahnTopologicalSortTransactions` (`beef_tx_sorting.go:7-15`). -/
def kahnLoop (txById : List (String × Transaction)) :
    Nat → List (String × Int) → List String → List Transaction →
    Except String (List Transaction)
  | 0, _, _, _ => .error "out of fuel"
  | _ + 1, _, [], result => .ok result
  | fuel + 1, incomingEdgesMap, txID :: rest, result =>
      match (txById.lookup txID : Option Transaction) with
      | none => .error ("panic: nil transaction dequeued for id " ++ txID)
      | some tx =>
          let step := removeTxFromIncomingEdges tx incomingEdgesMap rest
          kahnLoop txById fuel step.1 step.2 (result ++ [tx])

/-- `kahnTopologicalSortTransactions` (`beef_tx_sorting.go:3-19`):
prepare the structures, drain the queue, reverse the result.  The fuel
bound exceeds the largest possible number of loop iterations (at most
one per key of the in-degree map, which holds at most one key per batch
member plus one per input reference). -/
def kahnTopologicalSortTransactions (transactions : List Transaction) :
    Except String (List Transaction) :=
  let p := prepareSortStructures transactions
  let fuel := transactions.length + (transactions.map (fun t => (txInputIDs t).length)).sum + 1
  match kahnLoop p.1 fuel p.2.1 p.2.2 [] with
  | .error e => .error e
  | .ok result => .ok (reverseInPlace result)

/-! ### Statement vocabulary and concrete sample inputs -/

/-- The ids of a batch. -/
def batchIDs (dag : List Transaction) : List String :=
  dag.map Transaction.id

/-- No input of a batch member references an id outside the batch. -/
def NoExternalRefs (dag : List Transaction) : Prop :=
  ∀ t, t ∈ dag → ∀ k, k ∈ txInputIDs t → k ∈ batchIDs dag

/-- The batch-internal dependency subgraph is acyclic, phrased as
well-foundedness on finite sets: every nonempty collection of batch
members contains one whose outputs no member of the collection spends. -/
def AcyclicBatch (dag : List Transaction) : Prop :=
  ∀ S : List Transaction, S ≠ [] → (∀ t, t ∈ S → t ∈ dag) →
    ∃ t, t ∈ S ∧ ∀ u, u ∈ S → t.id ∉ txInputIDs u

/-- All previous-transaction references made by a batch, with
multiplicity. -/
def allRefs (L : List Transaction) : List String :=
  (L.map txInputIDs).flatten

/-- The batch members not yet appended to the sorter's result list. -/
def residTxs (dag result : List Transaction) : List Transaction :=
  dag.filter (fun t => decide (t.id ∉ result.map Transaction.id))

/-- The number of references to `k` made by the not-yet-processed batch
members: the ghost value of the sorter's in-degree map entry for `k`. -/
def rcResid (dag result : List Transaction) (k : String) : Int :=
  ((allRefs (residTxs dag result)).count k : Int)

/-- The loop invariant of the sorter's drain loop, for a batch with
no-duplicate ids and no external references. -/
structure DrainInv (dag : List Transaction) (m : List (String × Int))
    (queue : List String) (result : List Transaction) : Prop where
  resMem : ∀ t ∈ result, t ∈ dag
  resNodup : (result.map Transaction.id).Nodup
  queueMem : ∀ k ∈ queue, k ∈ batchIDs dag
  queueNodup : queue.Nodup
  disj : ∀ k ∈ queue, k ∉ result.map Transaction.id
  mform : m = (batchIDs dag).map (fun k => (k, rcResid dag result k))
  zeroChar : ∀ k ∈ batchIDs dag,
    ((k ∈ queue ∨ k ∈ result.map Transaction.id) ↔ rcResid dag result k = 0)
  order : ∀ l1 t l2, result = l1 ++ t :: l2 → ∀ u, u ∈ dag →
    t.id ∈ txInputIDs u → u ∈ l1

/-- A transaction with the given id and draft input references, and
zero-valued payload fields, for concrete batches. -/
def mkTx (id : String) (inputs : List String) : Transaction :=
  { id := id
    hex := "hex-" ++ id
    draftID := ""
    blockHash := ""
    blockHeight := 0
    merkleProof := { txOrID := "", index := 0, nodes := [] }
    draftTransaction := { configuration := {
      inputs := inputs.map (fun k => { utxoPointer := { transactionID := k } })
      outputs := [] } } }

/-- A baseline environment for concrete runs; scenarios override the
fields they exercise. -/
def baseEnv : PipeEnv := {
  now := 5
  getTransactionByID := .ok none
  getIncomingTransactionByID := .ok none
  broadcastResult := ("provider-a", none)
  processIncomingOk := false
  reGetTransaction := none
  queryResult := .notFound
  saveTxErr := none
  saveSyncErr := none
  getDraftTransactionID := .ok none
  finalizeP2P := fun _ => .ok "remote-tx" }

/-- A sync record with the sync track Ready, for confirmation-poller
scenarios. -/
def syncRecReady : SyncTransaction := {
  id := "tx1"
  configuration := { broadcast := true, broadcastInstant := false,
                     paymailP2P := false, syncOnChain := true }
  lastAttempt := none
  results := { lastMessage := "", results := [] }
  broadcastStatus := .complete
  p2pStatus := .skipped
  syncStatus := .ready
  transaction := none }

/-- The record above with a results log already holding 20 entries. -/
def syncRec20 : SyncTransaction := { syncRecReady with
  results := { lastMessage := "m",
               results := List.replicate 20
                 { action := "sync", executedAt := 0, provider := "p",
                   statusMessage := "m" } } }

/-- A concrete transaction for the confirmation-poller scenarios. -/
def sampleTx : Transaction := mkTx "tx1" []

/-- A sync record ready to broadcast, with the transaction already in
memory and the other two tracks configured off. -/
def syncRecBroadcast : SyncTransaction := {
  id := "tx1"
  configuration := { broadcast := true, broadcastInstant := false,
                     paymailP2P := false, syncOnChain := false }
  lastAttempt := none
  results := { lastMessage := "", results := [] }
  broadcastStatus := .ready
  p2pStatus := .skipped
  syncStatus := .skipped
  transaction := some sampleTx }

/-- The confirmation-poller run on a 20-entry log with the transaction
found on-chain and all saves succeeding. -/
def c1run : PipeOut :=
  processSyncTransaction
    { baseEnv with queryResult := .found "bh" 10 { txOrID := "tx1", index := 0, nodes := [] } }
    syncRec20 (some sampleTx)

/-- The confirmation-poller run against a chain query that fails with an
error other than not-found. -/
def c2run : PipeOut :=
  processSyncTransaction { baseEnv with queryResult := .failed "rpc failure" }
    syncRecReady none

/-- A paymail P2P output routed at endpoint `https://a`. -/
def p4a : PaymailP4 := { resolutionType := "p2p", receiveEndpoint := "https://a" }

/-- A paymail P2P output routed at endpoint `https://b`. -/
def p4b : PaymailP4 := { resolutionType := "p2p", receiveEndpoint := "https://b" }

/-- A draft with two P2P-resolved outputs. -/
def draftTwoP2P : DraftTransaction :=
  { configuration := { inputs := [], outputs := [{ paymailP4 := some p4a },
                                                 { paymailP4 := some p4b }] } }

/-- The sample transaction with an owning draft. -/
def txWithDraft : Transaction := { sampleTx with draftID := "draft-1" }

/-- An environment where the first paymail provider answers and the
second fails. -/
def envP2PFail : PipeEnv := { baseEnv with
  getDraftTransactionID := .ok (some draftTwoP2P)
  finalizeP2P := fun p4 =>
    if p4.receiveEndpoint = "https://b" then .error "remote down" else .ok "rtx-1" }

/-- A single-member batch whose one input references the id `x`, which
is not in the batch. -/
def txExtern : Transaction := mkTx "a" ["x"]

/-- The chain batch of the claims: `a` spends `b`, `b` spends `c`. -/
def dagChain : List Transaction := [mkTx "a" ["b"], mkTx "b" ["c"], mkTx "c" []]

/-! ## Theorems -/

/-- Claim C5: for every configuration flag set, a newly created sync
record's per-track initial statuses are exactly broadcast → Ready if the
broadcast flag is set else Skipped, p2p → Pending if the paymailP2P flag
is set else Skipped, sync → Ready if the syncOnChain flag is set else
Skipped (and all remaining fields start at their zero values). -/
theorem newSyncTransaction_initial_statuses (txID : String) (cfg : SyncConfig) :
    newSyncTransaction txID (some cfg) = some {
      id := txID
      configuration := cfg
      lastAttempt := none
      results := { lastMessage := "", results := [] }
      broadcastStatus := if cfg.broadcast then SyncStatus.ready else SyncStatus.skipped
      p2pStatus := if cfg.paymailP2P then SyncStatus.pending else SyncStatus.skipped
      syncStatus := if cfg.syncOnChain then SyncStatus.ready else SyncStatus.skipped
      transaction := none } := rfl

/-- Claim C9, counterexample: creating a sync record with a missing
configuration yields no record at all — the constructor's only result
channel is the (nil) record pointer, so no distinct error value is
reported at creation time. -/
theorem newSyncTransaction_nil_config_counterexample :
    newSyncTransaction "abc" none = none := rfl

/-- Claim C9, amended: creating a sync record with a missing (nil)
configuration silently returns no record (a nil pointer); the
constructor reports no error value. -/
theorem newSyncTransaction_nil_config_silent (txID : String) :
    newSyncTransaction txID none = none := rfl

/-- Claim C10: the bail-out helper, invoked with one of the three
actions, changes only the status field of that action's track, leaves
the other two tracks and the id/configuration unchanged, stamps
`lastAttempt`, sets the last message, and appends exactly one result
entry carrying the action, provider and message. -/
theorem bailAndSaveSyncTransaction_frame (syncTx : SyncTransaction)
    (status : SyncStatus) (action provider message : String) (now : Nat)
    (h : action = syncActionBroadcast ∨ action = syncActionSync ∨ action = syncActionP2P) :
    (bailAndSaveSyncTransaction syncTx status action provider message now).id = syncTx.id ∧
    (bailAndSaveSyncTransaction syncTx status action provider message now).configuration =
      syncTx.configuration ∧
    (bailAndSaveSyncTransaction syncTx status action provider message now).lastAttempt =
      some now ∧
    (bailAndSaveSyncTransaction syncTx status action provider message now).results.lastMessage =
      message ∧
    (bailAndSaveSyncTransaction syncTx status action provider message now).results.results =
      syncTx.results.results ++
        [{ action := action, executedAt := now, provider := provider,
           statusMessage := message }] ∧
    (action = syncActionBroadcast →
      (bailAndSaveSyncTransaction syncTx status action provider message now).broadcastStatus =
        status ∧
      (bailAndSaveSyncTransaction syncTx status action provider message now).p2pStatus =
        syncTx.p2pStatus ∧
      (bailAndSaveSyncTransaction syncTx status action provider message now).syncStatus =
        syncTx.syncStatus) ∧
    (action = syncActionSync →
      (bailAndSaveSyncTransaction syncTx status action provider message now).syncStatus =
        status ∧
      (bailAndSaveSyncTransaction syncTx status action provider message now).broadcastStatus =
        syncTx.broadcastStatus ∧
      (bailAndSaveSyncTransaction syncTx status action provider message now).p2pStatus =
        syncTx.p2pStatus) ∧
    (action = syncActionP2P →
      (bailAndSaveSyncTransaction syncTx status action provider message now).p2pStatus =
        status ∧
      (bailAndSaveSyncTransaction syncTx status action provider message now).broadcastStatus =
        syncTx.broadcastStatus ∧
      (bailAndSaveSyncTransaction syncTx status action provider message now).syncStatus =
        syncTx.syncStatus) := by
  rcases h with h | h | h <;> subst h <;>
    refine ⟨rfl, rfl, rfl, rfl, rfl, ?_, ?_, ?_⟩ <;> intro h2 <;>
    first
      | exact ⟨rfl, rfl, rfl⟩
      | exact absurd h2 (by decide)

/-- Claim C10, witness: a concrete bail-out on the sync track. -/
theorem bailAndSaveSyncTransaction_frame_witness :
    (syncActionSync = syncActionBroadcast ∨ syncActionSync = syncActionSync ∨
      syncActionSync = syncActionP2P) ∧
    (bailAndSaveSyncTransaction syncRecReady .error syncActionSync "internal" "boom" 7).syncStatus =
      SyncStatus.error ∧
    (bailAndSaveSyncTransaction syncRecReady .error syncActionSync "internal" "boom" 7).p2pStatus =
      syncRecReady.p2pStatus := by
  have h := bailAndSaveSyncTransaction_frame syncRecReady .error syncActionSync "internal"
    "boom" 7 (Or.inr (Or.inl rfl))
  exact ⟨Or.inr (Or.inl rfl), (h.2.2.2.2.2.2.1 rfl).1, (h.2.2.2.2.2.2.1 rfl).2.2⟩

/-- Claim C2, counterexample: on a chain-query failure other than
not-found the poller returns the error but leaves the record's
syncStatus unchanged (Ready, not Error) and persists nothing. -/
theorem processSyncTransaction_query_failure_counterexample :
    c2run.ret = some "rpc failure" ∧
    c2run.syncTx.syncStatus ≠ SyncStatus.error ∧
    c2run.syncTx.syncStatus = SyncStatus.ready ∧
    c2run.savedSync = [] := by
  refine ⟨rfl, by decide, rfl, rfl⟩

/-- Claim C2, amended: for every sync record processed by the
confirmation poller, a chain-query failure other than the distinguished
not-found error stops processing of that record and propagates the
failure to the caller, but mutates nothing: the record (syncStatus
included) is left exactly as it was and no persistence write happens. -/
theorem processSyncTransaction_query_failure (env : PipeEnv)
    (syncTx : SyncTransaction) (transaction : Option Transaction) (msg : String)
    (h : env.queryResult = .failed msg) :
    processSyncTransaction env syncTx transaction =
      { ret := some msg, syncTx := syncTx, savedSync := [], savedTx := [] } := by
  simp [processSyncTransaction, h]

/-- Claim C2, witness. -/
theorem processSyncTransaction_query_failure_witness :
    ({ baseEnv with queryResult := .failed "rpc failure" } : PipeEnv).queryResult =
      .failed "rpc failure" ∧
    c2run = { ret := some "rpc failure", syncTx := syncRecReady, savedSync := [],
              savedTx := [] } :=
  ⟨rfl, processSyncTransaction_query_failure _ syncRecReady none "rpc failure" rfl⟩

/-- Claim C1, counterexample: a successful confirmation-poller pass on a
record whose log already holds 20 entries appends without evicting,
leaving 21 entries — the 20-entry bound does not survive every pipeline
operation. -/
theorem results_log_bound_counterexample :
    syncRec20.results.results.length = 20 ∧
    c1run.syncTx.results.results.length = 21 := by
  exact ⟨by decide, by decide⟩

/-- Claim C1, amended: only the broadcast pipeline's success append is
bounded: it evicts the oldest entry (FIFO, preserving the relative order
of the remainder) whenever at least 19 entries are already present, so
it takes a log of n entries to n+1 when n ≤ 18 and keeps n entries when
n ≥ 19 — in particular a log of at most 20 entries stays at most 20.
The confirmation, P2P and bail-out appends are unconditional. -/
theorem broadcast_success_bounds_results (env : PipeEnv) (syncTx : SyncTransaction)
    (t : Transaction) (ht : syncTx.transaction = some t) (hhex : t.hex ≠ "")
    (hb : env.broadcastResult.2 = none) (hs : env.saveSyncErr = none)
    (hp2p : syncTx.p2pStatus = SyncStatus.skipped)
    (hsync : syncTx.syncStatus = SyncStatus.skipped) :
    (processBroadcastTransaction env syncTx).syncTx.results.results =
      (if 19 ≤ syncTx.results.results.length
       then syncTx.results.results.drop 1
       else syncTx.results.results) ++
      [{ action := syncActionBroadcast, executedAt := env.now,
         provider := env.broadcastResult.1, statusMessage := "broadcast success" }] ∧
    (processBroadcastTransaction env syncTx).syncTx.results.results.length =
      (if 19 ≤ syncTx.results.results.length
       then syncTx.results.results.length
       else syncTx.results.results.length + 1) ∧
    (syncTx.results.results.length ≤ 20 →
      (processBroadcastTransaction env syncTx).syncTx.results.results.length ≤ 20) := by
  rcases hbr : env.broadcastResult with ⟨prov, oe⟩
  rcases oe with _ | e
  · have hout : processBroadcastTransaction env syncTx =
        { ret := none
          syncTx := { syncTx with
            broadcastStatus := SyncStatus.complete
            lastAttempt := some env.now
            p2pStatus := SyncStatus.skipped
            syncStatus := SyncStatus.skipped
            results := {
              lastMessage := "broadcast success"
              results :=
                (if 19 ≤ syncTx.results.results.length
                 then syncTx.results.results.drop 1
                 else syncTx.results.results) ++
                [{ action := syncActionBroadcast, executedAt := env.now,
                   provider := prov, statusMessage := "broadcast success" }] } }
          savedSync := [{ syncTx with
            broadcastStatus := SyncStatus.complete
            lastAttempt := some env.now
            p2pStatus := SyncStatus.skipped
            syncStatus := SyncStatus.skipped
            results := {
              lastMessage := "broadcast success"
              results :=
                (if 19 ≤ syncTx.results.results.length
                 then syncTx.results.results.drop 1
                 else syncTx.results.results) ++
                [{ action := syncActionBroadcast, executedAt := env.now,
                   provider := prov, statusMessage := "broadcast success" }] } }]
          savedTx := [] } := by
      simp [processBroadcastTransaction, ht, hhex, hbr, hs, hp2p, hsync]
    simp only [hout, hbr]
    refine ⟨trivial, ?_, ?_⟩
    · by_cases h19 : 19 ≤ syncTx.results.results.length
      · simp [h19, List.length_drop]
        omega
      · simp [h19]
    · intro h20
      by_cases h19 : 19 ≤ syncTx.results.results.length
      · simp [h19, List.length_drop]
        omega
      · simp [h19]
        omega
  · rw [hbr] at hb
    exact absurd hb (by simp)

/-- Claim C1, witness: a concrete broadcast success on an empty log. -/
theorem broadcast_success_bounds_results_witness :
    (syncRecBroadcast.transaction = some sampleTx ∧ sampleTx.hex ≠ "" ∧
      baseEnv.broadcastResult.2 = none ∧ baseEnv.saveSyncErr = none ∧
      syncRecBroadcast.p2pStatus = SyncStatus.skipped ∧
      syncRecBroadcast.syncStatus = SyncStatus.skipped) ∧
    (processBroadcastTransaction baseEnv syncRecBroadcast).syncTx.results.results.length =
      (if 19 ≤ syncRecBroadcast.results.results.length
       then syncRecBroadcast.results.results.length
       else syncRecBroadcast.results.results.length + 1) :=
  ⟨⟨rfl, by decide, rfl, rfl, rfl, rfl⟩,
   (broadcast_success_bounds_results baseEnv syncRecBroadcast sampleTx rfl (by decide)
      rfl rfl rfl rfl).2.1⟩

/-- If some draft output has a P2P paymail resolution whose provider
call fails, the notifier output loop surfaces an error regardless of the
attempts already collected. -/
theorem notifyLoop_isError (env : PipeEnv) :
    ∀ (outputs : List TransactionOutput) (attempts : List SyncResult),
      (∃ out, out ∈ outputs ∧ ∃ p4, out.paymailP4 = some p4 ∧
        p4.resolutionType = ResolutionTypeP2P ∧
        ∃ msg, env.finalizeP2P p4 = .error msg) →
      ∃ e, notifyLoop env outputs attempts = .error e := by
  intro outputs
  induction outputs with
  | nil =>
      intro attempts h
      obtain ⟨out, hmem, _⟩ := h
      cases hmem
  | cons o rest ih =>
      intro attempts h
      obtain ⟨out, hmem, p4, hp4, hres, msg, hfail⟩ := h
      match ho : o.paymailP4 with
      | none =>
          have hrec : ∃ e, notifyLoop env rest attempts = .error e := by
            apply ih
            rcases List.mem_cons.mp hmem with h1 | h1
            · subst h1
              rw [ho] at hp4
              cases hp4
            · exact ⟨out, h1, p4, hp4, hres, msg, hfail⟩
          simpa [notifyLoop, ho] using hrec
      | some q4 =>
          by_cases hq : q4.resolutionType = ResolutionTypeP2P
          · match hf : env.finalizeP2P q4 with
            | .error e =>
                exact ⟨e, by simp [notifyLoop, ho, hq, hf]⟩
            | .ok txid =>
                have hout : out ∈ rest := by
                  rcases List.mem_cons.mp hmem with h1 | h1
                  · subst h1
                    rw [ho] at hp4
                    injection hp4 with hh
                    subst hh
                    rw [hf] at hfail
                    cases hfail
                  · exact h1
                have hrec := ih (attempts ++
                    [{ action := syncActionP2P, executedAt := env.now,
                       provider := q4.receiveEndpoint,
                       statusMessage := "success: " ++ txid }])
                  ⟨out, hout, p4, hp4, hres, msg, hfail⟩
                simpa [notifyLoop, ho, hq, hf] using hrec
          · have hout : out ∈ rest := by
              rcases List.mem_cons.mp hmem with h1 | h1
              · subst h1
                rw [ho] at hp4
                injection hp4 with hh
                subst hh
                exact absurd hres hq
              · exact h1
            have hrec := ih attempts ⟨out, hout, p4, hp4, hres, msg, hfail⟩
            simpa [notifyLoop, ho, hq] using hrec

/-- Claim C7: in a P2P notification pass over one sync record, if
contacting any single paymail provider fails, no provider result from
the pass is committed to the record (only the single bail-out entry for
the failure is appended), the p2p track is set back to Ready, and the
error is surfaced to the caller. -/
theorem p2p_provider_failure_aborts (env : PipeEnv) (syncTx : SyncTransaction)
    (t : Transaction) (draftTx : DraftTransaction)
    (hd : t.draftID ≠ "")
    (hdraft : env.getDraftTransactionID = .ok (some draftTx))
    (hfail : ∃ out, out ∈ draftTx.configuration.outputs ∧ ∃ p4,
      out.paymailP4 = some p4 ∧ p4.resolutionType = ResolutionTypeP2P ∧
      ∃ msg, env.finalizeP2P p4 = .error msg) :
    ∃ e, processP2PTransaction env syncTx (some t) =
      { ret := some e
        syncTx := bailAndSaveSyncTransaction syncTx .ready syncActionP2P "" e env.now
        savedSync := [bailAndSaveSyncTransaction syncTx .ready syncActionP2P "" e env.now]
        savedTx := [] } ∧
      (processP2PTransaction env syncTx (some t)).syncTx.p2pStatus = SyncStatus.ready ∧
      (processP2PTransaction env syncTx (some t)).syncTx.results.results =
        syncTx.results.results ++
          [{ action := syncActionP2P, executedAt := env.now, provider := "",
             statusMessage := e }] := by
  obtain ⟨e, he⟩ := notifyLoop_isError env draftTx.configuration.outputs [] hfail
  have hnotify : notifyPaymailProviders env t = .error e := by
    simp [notifyPaymailProviders, hdraft, he]
  have hrun : processP2PTransaction env syncTx (some t) =
      { ret := some e
        syncTx := bailAndSaveSyncTransaction syncTx .ready syncActionP2P "" e env.now
        savedSync := [bailAndSaveSyncTransaction syncTx .ready syncActionP2P "" e env.now]
        savedTx := [] } := by
    simp [processP2PTransaction, hd, hnotify]
  refine ⟨e, hrun, ?_, ?_⟩
  · rw [hrun]
    simp [bailAndSaveSyncTransaction, syncActionP2P, syncActionSync]
  · rw [hrun]
    simp [bailAndSaveSyncTransaction, syncActionP2P, syncActionSync, syncActionBroadcast]

/-- Claim C7, witness: two P2P outputs, the second provider fails. -/
theorem p2p_provider_failure_aborts_witness :
    txWithDraft.draftID ≠ "" ∧
    envP2PFail.getDraftTransactionID = .ok (some draftTwoP2P) ∧
    (∃ out, out ∈ draftTwoP2P.configuration.outputs ∧ ∃ p4,
      out.paymailP4 = some p4 ∧ p4.resolutionType = ResolutionTypeP2P ∧
      ∃ msg, envP2PFail.finalizeP2P p4 = .error msg) ∧
    (∃ e, processP2PTransaction envP2PFail syncRecReady (some txWithDraft) =
      { ret := some e
        syncTx := bailAndSaveSyncTransaction syncRecReady .ready syncActionP2P "" e
          envP2PFail.now
        savedSync := [bailAndSaveSyncTransaction syncRecReady .ready syncActionP2P "" e
          envP2PFail.now]
        savedTx := [] } ∧
      (processP2PTransaction envP2PFail syncRecReady (some txWithDraft)).syncTx.p2pStatus =
        SyncStatus.ready ∧
      (processP2PTransaction envP2PFail syncRecReady (some txWithDraft)).syncTx.results.results =
        syncRecReady.results.results ++
          [{ action := syncActionP2P, executedAt := envP2PFail.now, provider := "",
             statusMessage := e }]) := by
  have hfail : ∃ out, out ∈ draftTwoP2P.configuration.outputs ∧ ∃ p4,
      out.paymailP4 = some p4 ∧ p4.resolutionType = ResolutionTypeP2P ∧
      ∃ msg, envP2PFail.finalizeP2P p4 = .error msg :=
    ⟨{ paymailP4 := some p4b }, by decide, p4b, rfl, rfl, "remote down", rfl⟩
  exact ⟨by decide, rfl, hfail,
    p2p_provider_failure_aborts envP2PFail syncRecReady txWithDraft draftTwoP2P
      (by decide) rfl hfail⟩

/-- Claim C4: when a broadcast attempt succeeds, the pipeline appends a
success result, stamps `lastAttempt`, marks the broadcast track
Complete, flips P2P and sync from Pending to Ready (leaving all other
status values, the id and the configuration unchanged), persists the
record first, and then — given the transaction object at hand — chains
directly into the P2P pipeline when P2P is Ready, else into the
confirmation pipeline when P2P is Skipped and sync is Ready, else
returns. -/
theorem broadcast_success_updates_and_chains (env : PipeEnv)
    (syncTx : SyncTransaction) (t : Transaction)
    (ht : syncTx.transaction = some t) (hhex : t.hex ≠ "")
    (hb : env.broadcastResult.2 = none) (hs : env.saveSyncErr = none) :
    ∃ mid : SyncTransaction,
      mid.id = syncTx.id ∧
      mid.configuration = syncTx.configuration ∧
      mid.broadcastStatus = SyncStatus.complete ∧
      mid.lastAttempt = some env.now ∧
      mid.results.results =
        (if 19 ≤ syncTx.results.results.length
         then syncTx.results.results.drop 1
         else syncTx.results.results) ++
        [{ action := syncActionBroadcast, executedAt := env.now,
           provider := env.broadcastResult.1, statusMessage := "broadcast success" }] ∧
      mid.p2pStatus = (if syncTx.p2pStatus = SyncStatus.pending then SyncStatus.ready
                       else syncTx.p2pStatus) ∧
      mid.syncStatus = (if syncTx.syncStatus = SyncStatus.pending then SyncStatus.ready
                        else syncTx.syncStatus) ∧
      (processBroadcastTransaction env syncTx).savedSync.head? = some mid ∧
      (mid.p2pStatus = SyncStatus.ready →
        processBroadcastTransaction env syncTx =
          { processP2PTransaction env mid (some t) with
            savedSync := mid :: (processP2PTransaction env mid (some t)).savedSync }) ∧
      (mid.p2pStatus ≠ SyncStatus.ready → mid.p2pStatus = SyncStatus.skipped →
        mid.syncStatus = SyncStatus.ready →
        processBroadcastTransaction env syncTx =
          { processSyncTransaction env mid (some t) with
            savedSync := mid :: (processSyncTransaction env mid (some t)).savedSync }) ∧
      (mid.p2pStatus ≠ SyncStatus.ready →
        ¬(mid.p2pStatus = SyncStatus.skipped ∧ mid.syncStatus = SyncStatus.ready) →
        processBroadcastTransaction env syncTx =
          { ret := none, syncTx := mid, savedSync := [mid], savedTx := [] }) := by
  rcases hbr : env.broadcastResult with ⟨prov, oe⟩
  rcases oe with _ | e
  case some =>
    rw [hbr] at hb
    exact absurd hb (by simp)
  case none =>
  refine ⟨{ syncTx with
      broadcastStatus := SyncStatus.complete
      lastAttempt := some env.now
      results := {
        lastMessage := "broadcast success"
        results :=
          (if 19 ≤ syncTx.results.results.length
           then syncTx.results.results.drop 1
           else syncTx.results.results) ++
          [{ action := syncActionBroadcast, executedAt := env.now,
             provider := prov, statusMessage := "broadcast success" }] }
      p2pStatus := if syncTx.p2pStatus = SyncStatus.pending then SyncStatus.ready
                   else syncTx.p2pStatus
      syncStatus := if syncTx.syncStatus = SyncStatus.pending then SyncStatus.ready
                    else syncTx.syncStatus },
    rfl, rfl, rfl, rfl, by simp [hbr], rfl, rfl, ?_, ?_, ?_, ?_⟩
  · cases hp : syncTx.p2pStatus <;> cases hsy : syncTx.syncStatus <;>
      simp [processBroadcastTransaction, ht, hhex, hbr, hs, hp, hsy]
  · intro hready
    have hr : (if syncTx.p2pStatus = SyncStatus.pending then SyncStatus.ready
        else syncTx.p2pStatus) = SyncStatus.ready := hready
    cases hp : syncTx.p2pStatus <;>
      simp_all [processBroadcastTransaction, ht, hhex, hbr, hs]
  · intro hnready hskip hsready
    have hn : ¬((if syncTx.p2pStatus = SyncStatus.pending then SyncStatus.ready
        else syncTx.p2pStatus) = SyncStatus.ready) := hnready
    have hk : (if syncTx.p2pStatus = SyncStatus.pending then SyncStatus.ready
        else syncTx.p2pStatus) = SyncStatus.skipped := hskip
    have hy : (if syncTx.syncStatus = SyncStatus.pending then SyncStatus.ready
        else syncTx.syncStatus) = SyncStatus.ready := hsready
    cases hp : syncTx.p2pStatus <;> cases hsy : syncTx.syncStatus <;>
      simp_all [processBroadcastTransaction, ht, hhex, hbr, hs]
  · intro hnready hnchain
    have hn : ¬((if syncTx.p2pStatus = SyncStatus.pending then SyncStatus.ready
        else syncTx.p2pStatus) = SyncStatus.ready) := hnready
    have hc : ¬((if syncTx.p2pStatus = SyncStatus.pending then SyncStatus.ready
        else syncTx.p2pStatus) = SyncStatus.skipped ∧
        (if syncTx.syncStatus = SyncStatus.pending then SyncStatus.ready
         else syncTx.syncStatus) = SyncStatus.ready) := hnchain
    cases hp : syncTx.p2pStatus <;> cases hsy : syncTx.syncStatus <;>
      simp_all [processBroadcastTransaction, ht, hhex, hbr, hs]

/-- Claim C4, witness: a concrete broadcast success. -/
theorem broadcast_success_updates_and_chains_witness :
    (syncRecBroadcast.transaction = some sampleTx ∧ sampleTx.hex ≠ "" ∧
      baseEnv.broadcastResult.2 = none ∧ baseEnv.saveSyncErr = none) ∧
    ∃ mid : SyncTransaction,
      mid.broadcastStatus = SyncStatus.complete ∧
      mid.lastAttempt = some baseEnv.now ∧
      (processBroadcastTransaction baseEnv syncRecBroadcast).savedSync.head? = some mid := by
  obtain ⟨mid, h1, h2, h3, h4, h5, h6, h7, h8, h9, h10, h11⟩ :=
    broadcast_success_updates_and_chains baseEnv syncRecBroadcast sampleTx rfl
      (by decide) rfl rfl
  exact ⟨⟨rfl, by decide, rfl, rfl⟩, mid, h3, h4, h8⟩

/-- The levels built by the `for i := 1; i <= height-1` loop: level `i`
(0-based within the tail) carries the `i+1`-fold parent offset. -/
theorem cmpLevels_get (rest : List String) (offset : Nat) :
    ∀ i : Nat, i < rest.length →
      (cmpLevels rest offset).get? i =
        some [((rest.get? i).getD "", parrentOffset^[i + 1] offset)] := by
  induction rest generalizing offset with
  | nil =>
      intro i h
      cases h
  | cons n tail ih =>
      intro i h
      cases i with
      | zero => simp [cmpLevels]
      | succ j =>
          have hj : j < tail.length := Nat.lt_of_succ_lt_succ h
          have hrec := ih (parrentOffset offset) j hj
          simp only [cmpLevels, List.get?_cons_succ, hrec]
          simp [Function.iterate_succ_apply]

/-- Claim C6: the compound Merkle path of {txOrID, index, nodes} is
empty when nodes is empty; otherwise it has one level per node, level 0
maps txOrID to index and nodes[0] to offsetPair(index), and level i
(1 ≤ i < length) maps nodes[i] to the offset obtained by applying
parrentOffset i times to index, where offsetPair is o+1 for even o and
o−1 for odd o (for o in uint64 range), and parrentOffset halves then
takes the sibling; in particular index 3 with three nodes yields offsets
[{3, 2}, {0}, {1}]. -/
theorem toCompoundMerklePath_spec (m : MerkleProof) :
    (m.nodes = [] → m.ToCompoundMerklePath = []) ∧
    m.ToCompoundMerklePath.length = m.nodes.length ∧
    (∀ n0 rest, m.nodes = n0 :: rest → m.txOrID ≠ n0 →
      ∃ lvl0, m.ToCompoundMerklePath.get? 0 = some lvl0 ∧
        lvl0.lookup m.txOrID = some m.index ∧
        lvl0.lookup n0 = some (offsetPair m.index)) ∧
    (∀ i : Nat, 1 ≤ i → i < m.nodes.length →
      m.ToCompoundMerklePath.get? i =
        some [((m.nodes.get? i).getD "", parrentOffset^[i] m.index)]) ∧
    (∀ o : Nat, o < 2 ^ 64 →
      (o % 2 = 0 → offsetPair o = o + 1) ∧ (o % 2 = 1 → offsetPair o = o - 1)) ∧
    (∀ o : Nat, parrentOffset o = offsetPair (o / 2)) ∧
    MerkleProof.ToCompoundMerklePath { txOrID := "tx", index := 3, nodes := ["h0", "h1", "h2"] } =
      [[("tx", 3), ("h0", 2)], [("h1", 0)], [("h2", 1)]] := by
  refine ⟨?_, ?_, ?_, ?_, ?_, fun o => rfl, by decide⟩
  · intro h
    simp [MerkleProof.ToCompoundMerklePath, h]
  · match hm : m.nodes with
    | [] => simp [MerkleProof.ToCompoundMerklePath, hm]
    | n0 :: rest =>
        have hlen : ∀ (l : List String) (o : Nat), (cmpLevels l o).length = l.length := by
          intro l
          induction l with
          | nil => intro o; rfl
          | cons a tl ih2 => intro o; simp [cmpLevels, ih2]
        simp [MerkleProof.ToCompoundMerklePath, hm, hlen]
  · intro n0 rest hm hne
    refine ⟨mapSet (mapSet [] m.txOrID m.index) n0 (offsetPair m.index), ?_, ?_, ?_⟩
    · simp [MerkleProof.ToCompoundMerklePath, hm]
    · simp [mapSet, hne]
    · have hb : (n0 == m.txOrID) = false := beq_eq_false_iff_ne.mpr (Ne.symm hne)
      simp [mapSet, hne, List.lookup, hb]
  · intro i h1 h
    cases i with
    | zero => exact absurd h1 (by decide)
    | succ j =>
        match hm : m.nodes with
        | [] =>
            rw [hm] at h
            cases h
        | n0 :: rest =>
            rw [hm] at h
            have hj : j < rest.length := Nat.lt_of_succ_lt_succ h
            have hget := cmpLevels_get rest m.index j hj
            simp only [MerkleProof.ToCompoundMerklePath, hm, List.get?_cons_succ, hget]
  · intro o ho
    constructor
    · intro he
      have hlt : o + 1 < 2 ^ 64 := by omega
      unfold offsetPair
      rw [if_pos he, Nat.mod_eq_of_lt hlt]
    · intro ho2
      have hno : ¬(o % 2 = 0) := by omega
      simp [offsetPair, hno]

/-- Claim C6, witness: the proof {tx, 3, [h0, h1, h2]} of the claim. -/
theorem toCompoundMerklePath_spec_witness :
    MerkleProof.ToCompoundMerklePath { txOrID := "tx", index := 3, nodes := ["h0", "h1", "h2"] } =
      [[("tx", 3), ("h0", 2)], [("h1", 0)], [("h2", 1)]] ∧
    (∃ lvl0, (MerkleProof.ToCompoundMerklePath
        { txOrID := "tx", index := 3, nodes := ["h0", "h1", "h2"] }).get? 0 = some lvl0 ∧
      lvl0.lookup "tx" = some 3 ∧ lvl0.lookup "h0" = some (offsetPair 3)) := by
  have h := toCompoundMerklePath_spec { txOrID := "tx", index := 3, nodes := ["h0", "h1", "h2"] }
  exact ⟨h.2.2.2.2.2.2, h.2.2.1 "h0" ["h1", "h2"] rfl (by decide)⟩

/-- Claim C3, evaluation at the failing input: a batch whose single
member references a previous-transaction-id outside the batch does not
sort to the batch itself — the external id is counted, drained and
dequeued, and the nil transaction found for it is appended and
dereferenced (a panic) rather than ignored. -/
theorem kahn_external_ref_panics :
    kahnTopologicalSortTransactions [txExtern] =
      .error ("panic: nil transaction dequeued for id " ++ "x") ∧
    ∀ result : List Transaction,
      kahnTopologicalSortTransactions [txExtern] ≠ .ok result := by
  constructor
  · rfl
  · intro result h
    rw [show kahnTopologicalSortTransactions [txExtern] =
        .error ("panic: nil transaction dequeued for id " ++ "x") from rfl] at h
    cases h

/-! ### Association-list lemmas for the sorter proof -/

theorem lookup_mapSet_self {β : Type} (m : List (String × β)) (k : String) (v : β) :
    (mapSet m k v).lookup k = some v := by
  induction m with
  | nil => simp [mapSet, List.lookup]
  | cons p rest ih =>
      by_cases h : p.1 = k
      · simp [mapSet, h, List.lookup]
      · have hb : (k == p.1) = false := beq_eq_false_iff_ne.mpr (Ne.symm h)
        simp [mapSet, h, List.lookup, hb, ih]

theorem lookup_mapSet_ne {β : Type} (m : List (String × β)) (k k2 : String) (v : β)
    (h : k2 ≠ k) : (mapSet m k v).lookup k2 = m.lookup k2 := by
  induction m with
  | nil =>
      have hb : (k2 == k) = false := beq_eq_false_iff_ne.mpr h
      simp [mapSet, List.lookup, hb]
  | cons p rest ih =>
      by_cases hp : p.1 = k
      · have hb : (k2 == k) = false := beq_eq_false_iff_ne.mpr h
        have hb2 : (k2 == p.1) = false := by
          rw [hp]
          exact hb
        simp [mapSet, hp, List.lookup, hb, hb2]
      · by_cases hq : k2 = p.1
        · simp [mapSet, hp, List.lookup, hq, ih]
        · have hb : (k2 == p.1) = false := beq_eq_false_iff_ne.mpr hq
          simp [mapSet, hp, List.lookup, hb, ih]

theorem lookup_mapform {β : Type} (ids : List String) (g : String → β) (k : String)
    (h : k ∈ ids) : (ids.map (fun x => (x, g x))).lookup k = some (g k) := by
  induction ids with
  | nil => cases h
  | cons a rest ih =>
      by_cases ha : k = a
      · subst ha
        simp [List.lookup]
      · have hb : (k == a) = false := beq_eq_false_iff_ne.mpr ha
        have hmem : k ∈ rest := by
          rcases List.mem_cons.mp h with h1 | h1
          · exact absurd h1 ha
          · exact h1
        simp [List.lookup, hb, ih hmem]

theorem lookup_mapform_none {β : Type} (ids : List String) (g : String → β) (k : String)
    (h : k ∉ ids) : (ids.map (fun x => (x, g x))).lookup k = none := by
  induction ids with
  | nil => simp [List.lookup]
  | cons a rest ih =>
      have ha : k ≠ a := fun he => h (he ▸ List.mem_cons_self a rest)
      have hb : (k == a) = false := beq_eq_false_iff_ne.mpr ha
      have hmem : k ∉ rest := fun hm => h (List.mem_cons_of_mem a hm)
      simp [List.lookup, hb, ih hmem]

theorem mapGetD_mapform (ids : List String) (g : String → Int) (k : String)
    (h : k ∈ ids) : mapGetD (ids.map (fun x => (x, g x))) k = g k := by
  simp [mapGetD, lookup_mapform ids g k h]

theorem mapSet_mapform (ids : List String) (hnd : ids.Nodup) (g : String → Int)
    (k : String) (v : Int) (h : k ∈ ids) :
    mapSet (ids.map (fun x => (x, g x))) k v =
      ids.map (fun x => (x, if x = k then v else g x)) := by
  induction ids with
  | nil => cases h
  | cons a rest ih =>
      by_cases ha : a = k
      · subst ha
        have hnotin : a ∉ rest := (List.nodup_cons.mp hnd).1
        have hrest : List.map (fun x => (x, if x = a then v else g x)) rest =
            List.map (fun x => (x, g x)) rest := by
          apply List.map_congr_left
          intro x hx
          have hxa : x ≠ a := fun he => hnotin (he ▸ hx)
          simp [hxa]
        simp [List.map_cons, mapSet, hrest]
      · have hmem : k ∈ rest := by
          rcases List.mem_cons.mp h with h1 | h1
          · exact absurd h1.symm ha
          · exact h1
        simp only [List.map_cons, mapSet, ha, if_neg ha, if_false]
        rw [ih (List.nodup_cons.mp hnd).2 hmem]

theorem mapAdd_mapform (ids : List String) (hnd : ids.Nodup) (g : String → Int)
    (k : String) (d : Int) (h : k ∈ ids) :
    mapAdd (ids.map (fun x => (x, g x))) k d =
      ids.map (fun x => (x, if x = k then g x + d else g x)) := by
  unfold mapAdd
  rw [mapGetD_mapform ids g k h, mapSet_mapform ids hnd g k (g k + d) h]
  apply List.map_congr_left
  intro x hx
  by_cases hxk : x = k
  · subst hxk
    simp
  · simp [hxk]

/-! ### Characterizing the sorter's prepared structures -/

theorem lookup_txBuild_notmem :
    ∀ (l : List Transaction) (acc : List (String × Transaction)) (k : String),
      k ∉ l.map Transaction.id →
      (l.foldl (fun a tx => mapSet a tx.id tx) acc).lookup k = acc.lookup k := by
  intro l
  induction l with
  | nil => intro acc k _; rfl
  | cons t rest ih =>
      intro acc k hk
      have hk1 : k ≠ t.id := by
        intro he
        exact hk (by simp [he])
      have hk2 : k ∉ rest.map Transaction.id := by
        intro hm
        exact hk (by simp [List.mem_cons]; right; simpa using hm)
      simp only [List.foldl_cons]
      rw [ih (mapSet acc t.id t) k hk2, lookup_mapSet_ne acc t.id k t hk1]

theorem lookup_txBuild_mem :
    ∀ (l : List Transaction) (acc : List (String × Transaction)) (t : Transaction),
      t ∈ l → (l.map Transaction.id).Nodup →
      (l.foldl (fun a tx => mapSet a tx.id tx) acc).lookup t.id = some t := by
  intro l
  induction l with
  | nil => intro acc t h; cases h
  | cons t0 rest ih =>
      intro acc t hmem hnd
      rcases List.mem_cons.mp hmem with h1 | h1
      · subst h1
        have hnot : t.id ∉ rest.map Transaction.id := by
          have hnd2 : (∀ x ∈ rest, ¬x.id = t.id) ∧ (List.map Transaction.id rest).Nodup := by
            simpa using hnd
          intro hm
          rcases List.mem_map.mp hm with ⟨x, hx, hxe⟩
          exact hnd2.1 x hx hxe
        simp only [List.foldl_cons]
        rw [lookup_txBuild_notmem rest (mapSet acc t.id t) t.id hnot]
        exact lookup_mapSet_self acc t.id t
      · simp only [List.foldl_cons]
        exact ih (mapSet acc t0.id t0) t h1 (by
          have hnd2 : (∀ x ∈ rest, ¬x.id = t0.id) ∧ (List.map Transaction.id rest).Nodup := by
            simpa using hnd
          exact hnd2.2)

theorem build_zero :
    ∀ (l : List Transaction) (acc : List (String × Int)),
      (∀ t ∈ l, t.id ∉ acc.map Prod.fst) → (l.map Transaction.id).Nodup →
      l.foldl (fun a tx => mapSet a tx.id 0) acc =
        acc ++ l.map (fun t => (t.id, (0 : Int))) := by
  intro l
  induction l with
  | nil => intro acc _ _; simp
  | cons t rest ih =>
      intro acc hfresh hnd
      have hset : mapSet acc t.id 0 = acc ++ [(t.id, (0 : Int))] := by
        have hf : t.id ∉ acc.map Prod.fst := hfresh t (List.mem_cons_self t rest)
        clear hfresh hnd ih
        induction acc with
        | nil => rfl
        | cons p racc ih2 =>
            have hne : p.1 ≠ t.id := by
              intro he
              exact hf (by simp [he])
            simp only [mapSet, hne, if_false, List.cons_append]
            rw [ih2 (by
              intro hm
              exact hf (by simp [List.mem_cons]; right; simpa using hm))]
      simp only [List.foldl_cons]
      rw [hset, ih (acc ++ [(t.id, (0 : Int))]) ?fresh ?nodup]
      · simp
      case fresh =>
        intro u hu
        have hu1 : u.id ∉ acc.map Prod.fst := hfresh u (List.mem_cons_of_mem t hu)
        have hu2 : u.id ≠ t.id := by
          have hnd2 : (∀ x ∈ rest, ¬x.id = t.id) ∧ (List.map Transaction.id rest).Nodup := by
            simpa using hnd
          exact hnd2.1 u hu
        simp only [List.map_append, List.mem_append]
        rintro (hc | hc)
        · exact hu1 hc
        · simp at hc
          exact hu2 hc
      case nodup =>
        have hnd2 : (∀ x ∈ rest, ¬x.id = t.id) ∧ (List.map Transaction.id rest).Nodup := by
          simpa using hnd
        exact hnd2.2

theorem calc_eq_flat :
    ∀ (l : List Transaction) (m : List (String × Int)),
      calculateIncomingEdges m l =
        (allRefs l).foldl (fun a k => mapAdd a k 1) m := by
  intro l
  induction l with
  | nil => intro m; rfl
  | cons t rest ih =>
      intro m
      simp only [calculateIncomingEdges, List.foldl_cons, allRefs, List.map_cons,
        List.flatten_cons, List.foldl_append]
      exact ih _

theorem fold_add_mapform (ids : List String) (hnd : ids.Nodup) :
    ∀ (refs : List String) (g : String → Int),
      (∀ r ∈ refs, r ∈ ids) →
      refs.foldl (fun a k => mapAdd a k 1) (ids.map (fun x => (x, g x))) =
        ids.map (fun x => (x, g x + refs.count x)) := by
  intro refs
  induction refs with
  | nil =>
      intro g _
      apply Eq.symm
      apply List.map_congr_left
      intro x _
      simp
  | cons r rest ih =>
      intro g hsub
      have hr : r ∈ ids := hsub r (List.mem_cons_self r rest)
      simp only [List.foldl_cons]
      rw [mapAdd_mapform ids hnd g r 1 hr]
      rw [ih (fun x => if x = r then g x + 1 else g x)
        (fun x hx => hsub x (List.mem_cons_of_mem r hx))]
      apply List.map_congr_left
      intro x _
      by_cases hx : x = r
      · subst hx
        simp [List.count_cons]
        ring_nf
      · have hb : (x == r) = false := beq_eq_false_iff_ne.mpr hx
        simp [List.count_cons, hx, hb]

theorem filterzero_mapform (ids : List String) (g : String → Int) :
    getTxWithZeroIncomingEdges (ids.map (fun x => (x, g x))) =
      ids.filter (fun k => decide (g k = 0)) := by
  induction ids with
  | nil => rfl
  | cons a rest ih =>
      by_cases ha : g a = 0
      · simp only [getTxWithZeroIncomingEdges, List.map_cons, List.filter_cons] at *
        simp [ha, ih]
      · simp only [getTxWithZeroIncomingEdges, List.map_cons, List.filter_cons] at *
        simp [ha, ih]

/-! ### The residual reference count -/

theorem mem_residTxs (dag result : List Transaction) (u : Transaction) :
    u ∈ residTxs dag result ↔ u ∈ dag ∧ u.id ∉ result.map Transaction.id := by
  simp [residTxs]

theorem residTxs_nil (dag : List Transaction) : residTxs dag [] = dag := by
  simp [residTxs]

theorem residTxs_map_id_nodup (dag result : List Transaction)
    (hnd : (batchIDs dag).Nodup) :
    ((residTxs dag result).map Transaction.id).Nodup := by
  have hsub : List.Sublist (residTxs dag result) dag := List.filter_sublist dag
  exact (hsub.map Transaction.id).nodup hnd

theorem count_le_allRefs (L : List Transaction) (t : Transaction) (h : t ∈ L)
    (k : String) : (txInputIDs t).count k ≤ (allRefs L).count k := by
  induction L with
  | nil => cases h
  | cons a rest ih =>
      rcases List.mem_cons.mp h with h1 | h1
      · subst h1
        simp [allRefs, List.count_append]
      · have := ih h1
        simp only [allRefs, List.map_cons, List.flatten_cons, List.count_append]
        simp only [allRefs] at this
        omega

theorem allRefs_filter_ne_count (L : List Transaction) (tx : Transaction)
    (hmem : tx ∈ L) (hnd : (L.map Transaction.id).Nodup) (k : String) :
    (allRefs (L.filter (fun t => decide (t.id ≠ tx.id)))).count k =
      (allRefs L).count k - (txInputIDs tx).count k := by
  induction L with
  | nil => cases hmem
  | cons a rest ih =>
      have hnd2 : (∀ x ∈ rest, ¬x.id = a.id) ∧ (List.map Transaction.id rest).Nodup := by
        simpa using hnd
      by_cases ha : a.id = tx.id
      · have hta : tx = a := by
          rcases List.mem_cons.mp hmem with h1 | h1
          · exact h1
          · exact absurd ha.symm (hnd2.1 tx h1)
        subst hta
        have hfid : rest.filter (fun t => !decide (t.id = tx.id)) = rest := by
          apply List.filter_eq_self.mpr
          intro u hu
          simp [hnd2.1 u hu]
        simp [List.filter_cons, allRefs, List.count_append, hfid]
      · have htx : tx ∈ rest := by
          rcases List.mem_cons.mp hmem with h1 | h1
          · exact absurd (h1 ▸ rfl) ha
          · exact h1
        have hle := count_le_allRefs rest tx htx k
        have := ih htx hnd2.2
        simp only [List.filter_cons, decide_eq_true_eq]
        rw [if_pos (by simpa using Ne.symm (fun he => ha he.symm))]
        simp only [allRefs, List.map_cons, List.flatten_cons, List.count_append] at *
        omega

theorem residTxs_append (dag result : List Transaction) (tx : Transaction) :
    residTxs dag (result ++ [tx]) =
      (residTxs dag result).filter (fun t => decide (t.id ≠ tx.id)) := by
  unfold residTxs
  rw [List.filter_filter]
  apply List.filter_congr
  intro t _
  have : (t.id ∉ (result ++ [tx]).map Transaction.id) ↔
      (t.id ∉ result.map Transaction.id ∧ t.id ≠ tx.id) := by
    simp [not_or]
  rw [decide_eq_decide.mpr this, Bool.decide_and]
  exact Bool.and_comm _ _

theorem count_le_rcResid (dag result : List Transaction) (tx : Transaction)
    (hmem : tx ∈ dag) (hnp : tx.id ∉ result.map Transaction.id) (k : String) :
    ((txInputIDs tx).count k : Int) ≤ rcResid dag result k := by
  have htx : tx ∈ residTxs dag result := (mem_residTxs dag result tx).mpr ⟨hmem, hnp⟩
  have := count_le_allRefs (residTxs dag result) tx htx k
  unfold rcResid
  exact_mod_cast this

theorem rcResid_append (dag result : List Transaction) (tx : Transaction)
    (hnd : (batchIDs dag).Nodup) (hmem : tx ∈ dag)
    (hnp : tx.id ∉ result.map Transaction.id) (k : String) :
    rcResid dag (result ++ [tx]) k =
      rcResid dag result k - ((txInputIDs tx).count k : Int) := by
  have htx : tx ∈ residTxs dag result := (mem_residTxs dag result tx).mpr ⟨hmem, hnp⟩
  have hnd2 : ((residTxs dag result).map Transaction.id).Nodup :=
    residTxs_map_id_nodup dag result hnd
  have hle := count_le_allRefs (residTxs dag result) tx htx k
  unfold rcResid
  rw [residTxs_append dag result tx,
    allRefs_filter_ne_count (residTxs dag result) tx htx hnd2 k]
  push_cast [Nat.cast_sub hle]
  ring

theorem rcResid_nonneg (dag result : List Transaction) (k : String) :
    0 ≤ rcResid dag result k := Int.ofNat_nonneg _

theorem rcResid_eq_zero_iff (dag result : List Transaction) (k : String) :
    rcResid dag result k = 0 ↔ ∀ u ∈ residTxs dag result, k ∉ txInputIDs u := by
  unfold rcResid
  rw [Nat.cast_eq_zero, List.count_eq_zero]
  unfold allRefs
  simp only [List.mem_flatten, List.mem_map, not_exists, not_and]
  constructor
  · intro h u hu hk
    exact h (txInputIDs u) ⟨u, hu, rfl⟩ hk
  · rintro h l ⟨u, hu, rfl⟩ hk
    exact h u hu hk

/-! ### The decrement-and-enqueue fold -/

theorem drain_fold_char (ids : List String) (hnd : ids.Nodup) :
    ∀ (I : List String) (g : String → Int) (q : List String),
      (∀ r ∈ I, r ∈ ids) →
      (∀ k, ((I.count k : Int)) ≤ g k) →
      ∃ Z : List String,
        I.foldl
          (fun (acc : List (String × Int) × List String) neighborID =>
            let m2 := mapAdd acc.1 neighborID (-1)
            if mapGetD m2 neighborID = 0 then (m2, acc.2 ++ [neighborID])
            else (m2, acc.2))
          (ids.map (fun x => (x, g x)), q)
        = (ids.map (fun x => (x, g x - I.count x)), q ++ Z) ∧
        Z.Nodup ∧
        (∀ k, k ∈ Z ↔ (k ∈ I ∧ g k = I.count k)) := by
  intro I
  induction I with
  | nil =>
      intro g q _ _
      refine ⟨[], by simp, List.nodup_nil, by simp⟩
  | cons r I2 ih =>
      intro g q hsub hcount
      have hr : r ∈ ids := hsub r (List.mem_cons_self r I2)
      have hstep : mapAdd (ids.map (fun x => (x, g x))) r (-1) =
          ids.map (fun x => (x, if x = r then g x + (-1) else g x)) :=
        mapAdd_mapform ids hnd g r (-1) hr
      have hget : mapGetD (ids.map (fun x =>
          (x, if x = r then g x + (-1) else g x))) r =
          (if r = r then g r + (-1) else g r) :=
        mapGetD_mapform ids _ r hr
      have hcount2 : ∀ k, ((I2.count k : Int)) ≤
          (if k = r then g k + (-1) else g k) := by
        intro k
        have hc := hcount k
        by_cases hk : k = r
        · subst hk
          simp only [List.count_cons, beq_self_eq_true, if_true, if_pos rfl] at hc ⊢
          push_cast at hc
          omega
        · have hb : (k == r) = false := beq_eq_false_iff_ne.mpr hk
          simp only [List.count_cons, hb, if_false, if_neg hk] at hc ⊢
          omega
      have hsub2 : ∀ x ∈ I2, x ∈ ids := fun x hx => hsub x (List.mem_cons_of_mem r hx)
      by_cases hzero : (if r = r then g r + (-1) else g r) = 0
      · obtain ⟨Z2, heq, hnodup2, hchar2⟩ :=
          ih (fun x => if x = r then g x + (-1) else g x) (q ++ [r]) hsub2 hcount2
        have hgr : g r = 1 := by
          have h0 := hzero
          rw [if_pos rfl] at h0
          omega
        have hcr : I2.count r = 0 := by
          have hc := hcount r
          simp only [List.count_cons, beq_self_eq_true, if_true] at hc
          push_cast at hc
          omega
        refine ⟨r :: Z2, ?_, ?_, ?_⟩
        · simp only [List.foldl_cons]
          rw [hstep, hget, if_pos hzero, heq]
          simp only [Prod.mk.injEq]
          constructor
          · apply List.map_congr_left
            intro x _
            by_cases hx : x = r
            · subst hx
              simp only [if_pos rfl, List.count_cons_self, Prod.mk.injEq, true_and]
              push_cast
              ring
            · simp only [if_neg hx, List.count_cons_of_ne hx, Prod.mk.injEq, true_and]
          · simp
        · refine List.nodup_cons.mpr ⟨?_, hnodup2⟩
          intro hrz
          rcases (hchar2 r).mp hrz with ⟨hrI2, _⟩
          exact (List.count_eq_zero.mp hcr) hrI2
        · intro k
          by_cases hk : k = r
          · subst hk
            constructor
            · intro _
              refine ⟨List.mem_cons_self _ _, ?_⟩
              rw [List.count_cons_self, hcr, hgr]
              norm_num
            · intro _
              exact List.mem_cons_self _ _
          · have hch := hchar2 k
            simp only [if_neg hk] at hch
            rw [List.count_cons_of_ne hk]
            constructor
            · intro hm
              rcases List.mem_cons.mp hm with h1 | h1
              · exact absurd h1 hk
              · rcases hch.mp h1 with ⟨h2, h3⟩
                exact ⟨List.mem_cons_of_mem r h2, h3⟩
            · rintro ⟨hm, hgk⟩
              rcases List.mem_cons.mp hm with h1 | h1
              · exact absurd h1 hk
              · exact List.mem_cons_of_mem r (hch.mpr ⟨h1, hgk⟩)
      · obtain ⟨Z2, heq, hnodup2, hchar2⟩ :=
          ih (fun x => if x = r then g x + (-1) else g x) q hsub2 hcount2
        refine ⟨Z2, ?_, hnodup2, ?_⟩
        · simp only [List.foldl_cons]
          rw [hstep, hget, if_neg hzero, heq]
          simp only [Prod.mk.injEq]
          constructor
          · apply List.map_congr_left
            intro x _
            by_cases hx : x = r
            · subst hx
              simp only [if_pos rfl, List.count_cons_self, Prod.mk.injEq, true_and]
              push_cast
              ring
            · simp only [if_neg hx, List.count_cons_of_ne hx, Prod.mk.injEq, true_and]
          · trivial
        · intro k
          by_cases hk : k = r
          · subst hk
            have hchr := hchar2 k
            rw [if_pos rfl] at hchr hzero
            rw [hchr, List.count_cons_self]
            constructor
            · rintro ⟨h1, h2⟩
              refine ⟨List.mem_cons_self _ _, ?_⟩
              push_cast
              omega
            · rintro ⟨_, h2⟩
              have hmem : k ∈ I2 := by
                by_contra hnot
                have h0 : I2.count k = 0 := List.count_eq_zero.mpr hnot
                rw [h0] at h2
                push_cast at h2
                exact hzero (by omega)
              refine ⟨hmem, ?_⟩
              push_cast at h2 ⊢
              omega
          · have hchr := hchar2 k
            simp only [if_neg hk] at hchr
            rw [hchr, List.count_cons_of_ne hk]
            constructor
            · rintro ⟨h1, h2⟩
              exact ⟨List.mem_cons_of_mem r h1, h2⟩
            · rintro ⟨h1, h2⟩
              rcases List.mem_cons.mp h1 with h3 | h3
              · exact absurd h3 hk
              · exact ⟨h3, h2⟩

theorem removeTx_char (ids : List String) (hnd : ids.Nodup) (tx : Transaction)
    (g : String → Int) (q : List String)
    (hsub : ∀ r ∈ txInputIDs tx, r ∈ ids)
    (hcount : ∀ k, ((txInputIDs tx).count k : Int) ≤ g k) :
    ∃ Z : List String,
      removeTxFromIncomingEdges tx (ids.map (fun x => (x, g x))) q =
        (ids.map (fun x => (x, g x - (txInputIDs tx).count x)), q ++ Z) ∧
      Z.Nodup ∧
      (∀ k, k ∈ Z ↔ (k ∈ txInputIDs tx ∧ g k = (txInputIDs tx).count k)) :=
  drain_fold_char ids hnd (txInputIDs tx) g q hsub hcount

/-! ### Auxiliary facts for the drain loop -/

theorem batch_id_inj (dag : List Transaction) (hnd : (batchIDs dag).Nodup)
    {t u : Transaction} (ht : t ∈ dag) (hu : u ∈ dag) (h : t.id = u.id) : t = u :=
  List.inj_on_of_nodup_map hnd ht hu h

theorem nodup_subset_length_le (l sup : List String) (hnd : l.Nodup)
    (hsub : ∀ x ∈ l, x ∈ sup) : l.length ≤ sup.length :=
  (hnd.subperm hsub).length_le

theorem append_singleton_split {α : Type} (res l1 l2 : List α) (t x : α)
    (h : res ++ [x] = l1 ++ t :: l2) :
    (l1 = res ∧ t = x ∧ l2 = []) ∨
      ∃ l2p, res = l1 ++ t :: l2p ∧ l2 = l2p ++ [x] := by
  rcases List.eq_nil_or_concat l2 with h2 | ⟨l2p, x2, h2⟩
  · subst h2
    left
    have hrev := congrArg List.reverse h
    simp only [List.reverse_append, List.reverse_cons, List.reverse_nil,
      List.nil_append, List.singleton_append] at hrev
    injection hrev with h3 h4
    refine ⟨?_, h3.symm, rfl⟩
    have := congrArg List.reverse h4
    simpa using this.symm
  · subst h2
    right
    have hrev := congrArg List.reverse h
    simp only [List.concat_eq_append, List.reverse_append, List.reverse_cons,
      List.reverse_nil, List.nil_append, List.singleton_append,
      List.append_assoc] at hrev
    injection hrev with h3 h4
    refine ⟨l2p, ?_, by simp [List.concat_eq_append, h3]⟩
    have := congrArg List.reverse h4
    simp only [List.reverse_append, List.reverse_reverse, List.reverse_cons] at this
    rw [this]
    simp

/-- The drain loop of Kahn's algorithm, run from any state satisfying
the invariant, terminates with a result that extends the current one to
a duplicate-free cover of the whole batch in dependents-first order. -/
theorem kahnLoop_ok (dag : List Transaction) (txById : List (String × Transaction))
    (hnd : (batchIDs dag).Nodup) (hext : NoExternalRefs dag)
    (hacy : AcyclicBatch dag)
    (hlook : ∀ t ∈ dag, txById.lookup t.id = some t) :
    ∀ (fuel : Nat) (m : List (String × Int)) (queue : List String)
      (result : List Transaction),
      DrainInv dag m queue result →
      dag.length - result.length < fuel →
      ∃ final, kahnLoop txById fuel m queue result = .ok final ∧
        (∃ added, final = result ++ added) ∧
        (∀ t ∈ final, t ∈ dag) ∧
        (final.map Transaction.id).Nodup ∧
        (∀ k ∈ batchIDs dag, k ∈ final.map Transaction.id) ∧
        (∀ l1 t l2, final = l1 ++ t :: l2 → ∀ u, u ∈ dag →
          t.id ∈ txInputIDs u → u ∈ l1) := by
  intro fuel
  induction fuel with
  | zero =>
      intro m queue result _ hf
      omega
  | succ fuel ih =>
      intro m queue result hinv hf
      rcases queue with _ | ⟨txID, rest⟩
      · refine ⟨result, by simp [kahnLoop], ⟨[], by simp⟩, hinv.resMem,
          hinv.resNodup, ?_, hinv.order⟩
        intro k hk
        by_contra hknot
        obtain ⟨t0, ht0mem, ht0id⟩ := List.mem_map.mp hk
        have ht0S : t0 ∈ residTxs dag result :=
          (mem_residTxs _ _ _).mpr ⟨ht0mem, by rw [ht0id]; exact hknot⟩
        have hSne : residTxs dag result ≠ [] := by
          intro he
          rw [he] at ht0S
          cases ht0S
        have hSsub : ∀ t ∈ residTxs dag result, t ∈ dag :=
          fun t ht => ((mem_residTxs _ _ _).mp ht).1
        obtain ⟨tm, htmS, htop⟩ := hacy (residTxs dag result) hSne hSsub
        have htmdag := ((mem_residTxs _ _ _).mp htmS).1
        have htmnp := ((mem_residTxs _ _ _).mp htmS).2
        have hzc := hinv.zeroChar tm.id (List.mem_map.mpr ⟨tm, htmdag, rfl⟩)
        have hne : rcResid dag result tm.id ≠ 0 := by
          intro h0
          rcases hzc.mpr h0 with h1 | h1
          · cases h1
          · exact htmnp h1
        rw [Ne, rcResid_eq_zero_iff] at hne
        push_neg at hne
        obtain ⟨u, huS, huref⟩ := hne
        exact (htop u huS) huref
      · have htidmem : txID ∈ batchIDs dag :=
          hinv.queueMem txID (List.mem_cons_self _ _)
        obtain ⟨tx, htxdag, htxid⟩ := List.mem_map.mp htidmem
        have hlk : txById.lookup txID = some tx := by
          rw [← htxid]
          exact hlook tx htxdag
        have htxnp : tx.id ∉ result.map Transaction.id := by
          rw [htxid]
          exact hinv.disj txID (List.mem_cons_self _ _)
        have hcount : ∀ k, ((txInputIDs tx).count k : Int) ≤ rcResid dag result k :=
          fun k => count_le_rcResid dag result tx htxdag htxnp k
        have hsub : ∀ r ∈ txInputIDs tx, r ∈ batchIDs dag :=
          fun r hr => hext tx htxdag r hr
        obtain ⟨Z, hstep, hZnodup, hZchar⟩ :=
          removeTx_char (batchIDs dag) hnd tx (rcResid dag result) rest hsub hcount
        have hrc2 : ∀ k, rcResid dag (result ++ [tx]) k =
            rcResid dag result k - ((txInputIDs tx).count k : Int) :=
          fun k => rcResid_append dag result tx hnd htxdag htxnp k
        have hZzero : ∀ k ∈ Z, rcResid dag result k ≠ 0 := by
          intro k hkZ h0
          rcases (hZchar k).mp hkZ with ⟨hkI, hke⟩
          rw [h0] at hke
          have hc0 : (txInputIDs tx).count k = 0 := by exact_mod_cast hke.symm
          exact (List.count_eq_zero.mp hc0) hkI
        have hZnotq : ∀ k ∈ Z, k ∉ (txID :: rest) ∧ k ∉ result.map Transaction.id := by
          intro k hkZ
          have hkids : k ∈ batchIDs dag := hsub k ((hZchar k).mp hkZ).1
          have hzc := hinv.zeroChar k hkids
          exact ⟨fun hkq => hZzero k hkZ (hzc.mp (Or.inl hkq)),
            fun hkp => hZzero k hkZ (hzc.mp (Or.inr hkp))⟩
        have htxzero : rcResid dag result txID = 0 :=
          (hinv.zeroChar txID htidmem).mp (Or.inl (List.mem_cons_self _ _))
        have hqrest : rest.Nodup ∧ txID ∉ rest := by
          have := List.nodup_cons.mp hinv.queueNodup
          exact ⟨this.2, this.1⟩
        have hinv2 : DrainInv dag
            ((batchIDs dag).map (fun x =>
              (x, rcResid dag result x - ((txInputIDs tx).count x : Int))))
            (rest ++ Z) (result ++ [tx]) := by
          refine ⟨?_, ?_, ?_, ?_, ?_, ?_, ?_, ?_⟩
          · intro t ht
            rcases List.mem_append.mp ht with h1 | h1
            · exact hinv.resMem t h1
            · rw [List.mem_singleton.mp h1]
              exact htxdag
          · rw [List.map_append]
            refine List.Nodup.append hinv.resNodup (by simp) ?_
            intro a ha hb
            simp only [List.map_cons, List.map_nil, List.mem_singleton] at hb
            rw [hb] at ha
            exact htxnp ha
          · intro k hk
            rcases List.mem_append.mp hk with h1 | h1
            · exact hinv.queueMem k (List.mem_cons_of_mem _ h1)
            · exact hsub k ((hZchar k).mp h1).1
          · refine List.Nodup.append hqrest.1 hZnodup ?_
            intro a ha hb
            exact (hZnotq a hb).1 (List.mem_cons_of_mem _ ha)
          · intro k hk
            rw [List.map_append]
            simp only [List.mem_append, List.map_cons, List.map_nil,
              List.mem_singleton]
            rcases List.mem_append.mp hk with h1 | h1
            · rintro (hc | hc)
              · exact hinv.disj k (List.mem_cons_of_mem _ h1) hc
              · rw [hc, htxid] at h1
                exact hqrest.2 h1
            · rintro (hc | hc)
              · exact (hZnotq k h1).2 hc
              · exact (hZnotq k h1).1
                  (by rw [hc, htxid]; exact List.mem_cons_self _ _)
          · apply List.map_congr_left
            intro x _
            rw [hrc2 x]
          · intro k hk
            have hzc := hinv.zeroChar k hk
            rw [hrc2 k]
            constructor
            · rintro (hq | hp)
              · rcases List.mem_append.mp hq with h1 | h1
                · have h0 : rcResid dag result k = 0 :=
                    hzc.mp (Or.inl (List.mem_cons_of_mem _ h1))
                  have hc0 : ((txInputIDs tx).count k : Int) = 0 := by
                    have := hcount k
                    rw [h0] at this
                    have hge : (0 : Int) ≤ ((txInputIDs tx).count k : Int) :=
                      Int.ofNat_nonneg _
                    omega
                  rw [h0, hc0]
                  ring
                · rcases (hZchar k).mp h1 with ⟨_, hke⟩
                  rw [hke]
                  ring
              · rw [List.map_append] at hp
                rcases List.mem_append.mp hp with h1 | h1
                · have h0 : rcResid dag result k = 0 := hzc.mp (Or.inr h1)
                  have hc0 : ((txInputIDs tx).count k : Int) = 0 := by
                    have := hcount k
                    rw [h0] at this
                    have hge : (0 : Int) ≤ ((txInputIDs tx).count k : Int) :=
                      Int.ofNat_nonneg _
                    omega
                  rw [h0, hc0]
                  ring
                · simp only [List.map_cons, List.map_nil, List.mem_singleton] at h1
                  rw [h1, htxid]
                  have hc0 : ((txInputIDs tx).count txID : Int) = 0 := by
                    have := hcount txID
                    rw [htxzero] at this
                    have hge : (0 : Int) ≤ ((txInputIDs tx).count txID : Int) :=
                      Int.ofNat_nonneg _
                    omega
                  rw [htxzero, hc0]
                  ring
            · intro h0
              by_cases hrz : rcResid dag result k = 0
              · rcases hzc.mpr hrz with h1 | h1
                · rcases List.mem_cons.mp h1 with h2 | h2
                  · right
                    rw [List.map_append, h2, ← htxid]
                    simp
                  · exact Or.inl (List.mem_append.mpr (Or.inl h2))
                · right
                  rw [List.map_append]
                  exact List.mem_append.mpr (Or.inl h1)
              · left
                refine List.mem_append.mpr (Or.inr ?_)
                apply (hZchar k).mpr
                have hke : rcResid dag result k = ((txInputIDs tx).count k : Int) := by
                  omega
                refine ⟨?_, hke⟩
                by_contra hnot
                have hc0 : (txInputIDs tx).count k = 0 := List.count_eq_zero.mpr hnot
                rw [hc0] at hke
                exact hrz (by simpa using hke)
          · intro l1 t l2 heq u hu huref
            rcases append_singleton_split result l1 l2 t tx heq with
              ⟨hl1, hteq, _⟩ | ⟨l2p, hres, _⟩
            · have hzc2 : rcResid dag result tx.id = 0 := by
                rw [htxid]
                exact htxzero
              have hall := (rcResid_eq_zero_iff dag result tx.id).mp hzc2
              have huref2 : tx.id ∈ txInputIDs u := by
                rw [← hteq]
                exact huref
              have hup : u.id ∈ result.map Transaction.id := by
                by_contra hunot
                have huS : u ∈ residTxs dag result :=
                  (mem_residTxs _ _ _).mpr ⟨hu, hunot⟩
                exact (hall u huS) huref2
              obtain ⟨u2, hu2mem, hu2id⟩ := List.mem_map.mp hup
              have hueq : u2 = u :=
                batch_id_inj dag hnd (hinv.resMem u2 hu2mem) hu hu2id
              rw [hl1, ← hueq]
              exact hu2mem
            · exact hinv.order l1 t l2p hres u hu huref
        have hlen2 : (result ++ [tx]).length ≤ dag.length := by
          have hmapnd : ((result ++ [tx]).map Transaction.id).Nodup := hinv2.resNodup
          have hmapsub : ∀ x ∈ (result ++ [tx]).map Transaction.id,
              x ∈ batchIDs dag := by
            intro x hx
            obtain ⟨t, htmem, htid⟩ := List.mem_map.mp hx
            exact htid ▸ List.mem_map.mpr ⟨t, hinv2.resMem t htmem, rfl⟩
          have := nodup_subset_length_le _ _ hmapnd hmapsub
          simpa [batchIDs] using this
        obtain ⟨final, hok, ⟨added, haddeq⟩, h3, h4, h5, h6⟩ :=
          ih _ _ _ hinv2 (by
            simp only [List.length_append, List.length_cons, List.length_nil] at hlen2 ⊢
            omega)
        refine ⟨final, ?_, ⟨tx :: added, by rw [haddeq]; simp⟩, h3, h4, h5, h6⟩
        have hrun : kahnLoop txById (fuel + 1) m (txID :: rest) result =
            kahnLoop txById fuel
              ((batchIDs dag).map (fun x =>
                (x, rcResid dag result x - ((txInputIDs tx).count x : Int))))
              (rest ++ Z) (result ++ [tx]) := by
          rw [hinv.mform]
          simp only [kahnLoop, hlk, hstep]
        rw [hrun]
        exact hok

/-- Every nonempty list of transactions has a member of maximal rank. -/
theorem exists_max_rank (f : Transaction → Nat) :
    ∀ (S : List Transaction), S ≠ [] → ∃ t ∈ S, ∀ u ∈ S, f u ≤ f t := by
  intro S
  induction S with
  | nil => intro h; exact absurd rfl h
  | cons x xs ih =>
      intro _
      rcases xs with _ | ⟨y, ys⟩
      · exact ⟨x, List.mem_cons_self _ _, by
          intro u hu
          rw [List.mem_singleton.mp hu]⟩
      · obtain ⟨t, htS, hmax⟩ := ih (by simp)
        by_cases hc : f t ≤ f x
        · refine ⟨x, List.mem_cons_self _ _, ?_⟩
          intro u hu
          rcases List.mem_cons.mp hu with h1 | h1
          · rw [h1]
          · exact le_trans (hmax u h1) hc
        · refine ⟨t, List.mem_cons_of_mem _ htS, ?_⟩
          intro u hu
          rcases List.mem_cons.mp hu with h1 | h1
          · rw [h1]
            omega
          · exact hmax u h1

/-- A ranking that strictly increases along spend edges certifies
acyclicity of the batch dependency subgraph. -/
theorem acyclic_of_rank (dag : List Transaction) (r : String → Nat)
    (h : ∀ t ∈ dag, ∀ u ∈ dag, t.id ∈ txInputIDs u → r t.id < r u.id) :
    AcyclicBatch dag := by
  intro S hne hsub
  obtain ⟨t, htS, hmax⟩ := exists_max_rank (fun t => r t.id) S hne
  refine ⟨t, htS, ?_⟩
  intro u huS href
  have h1 := h t (hsub t htS) u (hsub u huS) href
  have h2 := hmax u huS
  omega

/-- Claim C8: for every batch whose internal dependency subgraph is
acyclic, whose ids are duplicate-free and which has no external
references, the topological sorter succeeds and outputs a permutation of
the batch in which every transaction appears after all batch-internal
transactions whose outputs it spends; in particular the chain batch
{a spends b, b spends c} yields exactly [c, b, a]. -/
theorem kahn_topological_order :
    (∀ dag : List Transaction, (batchIDs dag).Nodup → NoExternalRefs dag →
      AcyclicBatch dag →
      ∃ final, kahnTopologicalSortTransactions dag = .ok final ∧
        final.Perm dag ∧
        (∀ pre u post, final = pre ++ u :: post → ∀ t, t ∈ dag →
          t.id ∈ txInputIDs u → t ∈ pre)) ∧
    kahnTopologicalSortTransactions dagChain =
      .ok [mkTx "c" [], mkTx "b" ["c"], mkTx "a" ["b"]] := by
  constructor
  swap
  · rfl
  intro dag hnd hext hacy
  have hndm : (dag.map Transaction.id).Nodup := hnd
  have hTx : ∀ t ∈ dag,
      (dag.foldl (fun acc tx => mapSet acc tx.id tx) []).lookup t.id = some t :=
    fun t ht => lookup_txBuild_mem dag [] t ht hndm
  have hm0 : dag.foldl (fun a tx => mapSet a tx.id 0) [] =
      (batchIDs dag).map (fun k => (k, (0 : Int))) := by
    rw [build_zero dag [] (by simp) hndm]
    simp [batchIDs, List.map_map]
  have hrefsub : ∀ r ∈ allRefs dag, r ∈ batchIDs dag := by
    intro r hr
    obtain ⟨l, hl, hrl⟩ := List.mem_flatten.mp hr
    obtain ⟨t, ht, rfl⟩ := List.mem_map.mp hl
    exact hext t ht r hrl
  have hm1 : calculateIncomingEdges (dag.foldl (fun a tx => mapSet a tx.id 0) []) dag =
      (batchIDs dag).map (fun k => (k, rcResid dag [] k)) := by
    rw [calc_eq_flat, hm0,
      fold_add_mapform (batchIDs dag) hnd (allRefs dag) (fun _ => (0 : Int)) hrefsub]
    apply List.map_congr_left
    intro x _
    simp [rcResid, residTxs_nil]
  have hp : prepareSortStructures dag =
      (dag.foldl (fun acc tx => mapSet acc tx.id tx) [],
       (batchIDs dag).map (fun k => (k, rcResid dag [] k)),
       (batchIDs dag).filter (fun k => decide (rcResid dag [] k = 0))) := by
    simp only [prepareSortStructures, hm1, filterzero_mapform]
  have hinv0 : DrainInv dag ((batchIDs dag).map (fun k => (k, rcResid dag [] k)))
      ((batchIDs dag).filter (fun k => decide (rcResid dag [] k = 0))) [] := by
    refine ⟨(by intro t ht; cases ht), (by simp), ?_, hnd.filter _,
      (by intro k hk; simp), rfl, ?_, ?_⟩
    · intro k hk
      exact (List.mem_filter.mp hk).1
    · intro k hk
      simp only [List.map_nil, List.not_mem_nil, or_false]
      constructor
      · intro h1
        exact of_decide_eq_true (List.mem_filter.mp h1).2
      · intro h0
        exact List.mem_filter.mpr ⟨hk, decide_eq_true h0⟩
    · intro l1 t l2 heq u hu href
      simp at heq
  have hfuel : dag.length - ([] : List Transaction).length <
      dag.length + (dag.map (fun t => (txInputIDs t).length)).sum + 1 := by
    simp only [List.length_nil, Nat.sub_zero]
    omega
  obtain ⟨drainFinal, hok, _, hmem, hnodupm, hcover, horder⟩ :=
    kahnLoop_ok dag (dag.foldl (fun acc tx => mapSet acc tx.id tx) []) hnd hext hacy
      hTx (dag.length + (dag.map (fun t => (txInputIDs t).length)).sum + 1)
      ((batchIDs dag).map (fun k => (k, rcResid dag [] k)))
      ((batchIDs dag).filter (fun k => decide (rcResid dag [] k = 0))) [] hinv0 hfuel
  have hkahn : kahnTopologicalSortTransactions dag = .ok drainFinal.reverse := by
    unfold kahnTopologicalSortTransactions
    rw [hp]
    simp only [hok]
    rfl
  refine ⟨drainFinal.reverse, hkahn, ?_, ?_⟩
  · have hsub1 : ∀ t ∈ drainFinal, t ∈ dag := hmem
    have hnodupF : drainFinal.Nodup := hnodupm.of_map
    have hnodupD : dag.Nodup := hndm.of_map
    have hsub2 : ∀ t ∈ dag, t ∈ drainFinal := by
      intro t ht
      have hid : t.id ∈ batchIDs dag := List.mem_map.mpr ⟨t, ht, rfl⟩
      have := hcover t.id hid
      obtain ⟨t2, ht2mem, ht2id⟩ := List.mem_map.mp this
      have : t2 = t := batch_id_inj dag hnd (hmem t2 ht2mem) ht ht2id
      rw [← this]
      exact ht2mem
    have hperm : drainFinal.Perm dag :=
      (hnodupF.subperm hsub1).antisymm (hnodupD.subperm hsub2)
    exact (List.reverse_perm drainFinal).trans hperm
  · intro pre u post heqf t ht htref
    have hdf : drainFinal = post.reverse ++ u :: pre.reverse := by
      have h1 := congrArg List.reverse heqf
      rw [List.reverse_reverse] at h1
      rw [h1]
      simp [List.reverse_append]
    have hudag : u ∈ dag := by
      apply hmem
      rw [hdf]
      exact List.mem_append.mpr (Or.inr (List.mem_cons_self _ _))
    have htf : t ∈ drainFinal := by
      have hid : t.id ∈ batchIDs dag := List.mem_map.mpr ⟨t, ht, rfl⟩
      obtain ⟨t2, ht2mem, ht2id⟩ := List.mem_map.mp (hcover t.id hid)
      have : t2 = t := batch_id_inj dag hnd (hmem t2 ht2mem) ht ht2id
      rw [← this]
      exact ht2mem
    have htu : t ≠ u := by
      intro he
      obtain ⟨v, hvS, hnospend⟩ := hacy [t] (by simp)
        (by
          intro x hx
          rw [List.mem_singleton.mp hx]
          exact ht)
      rw [List.mem_singleton.mp hvS] at hnospend
      rw [← he] at htref
      exact hnospend t (List.mem_singleton.mpr rfl) htref
    by_contra htpre
    have htfin : t ∈ pre ++ u :: post := by
      rw [← heqf]
      exact List.mem_reverse.mpr htf
    have htpost : t ∈ post := by
      rcases List.mem_append.mp htfin with h1 | h1
      · exact absurd h1 htpre
      · rcases List.mem_cons.mp h1 with h2 | h2
        · exact absurd h2 htu
        · exact h2
    obtain ⟨a, b, hab⟩ := List.append_of_mem (List.mem_reverse.mpr htpost)
    have hdf2 : drainFinal = a ++ t :: (b ++ u :: pre.reverse) := by
      rw [hdf, hab]
      simp
    have huin := horder a t (b ++ u :: pre.reverse) hdf2 u hudag htref
    have hnodupF : drainFinal.Nodup := hnodupm.of_map
    rw [hdf2] at hnodupF
    have hdisj := List.disjoint_of_nodup_append hnodupF
    exact hdisj huin (by simp)

/-- Claim C8, witness: the chain batch {a spends b, b spends c}. -/
theorem kahn_topological_order_witness :
    (batchIDs dagChain).Nodup ∧ NoExternalRefs dagChain ∧ AcyclicBatch dagChain ∧
    ∃ final, kahnTopologicalSortTransactions dagChain = .ok final ∧
      final.Perm dagChain ∧
      (∀ pre u post, final = pre ++ u :: post → ∀ t, t ∈ dagChain →
        t.id ∈ txInputIDs u → t ∈ pre) := by
  have hacy : AcyclicBatch dagChain := by
    apply acyclic_of_rank dagChain
      (fun k => if k = "a" then 2 else if k = "b" then 1 else 0)
    decide
  have hext : NoExternalRefs dagChain := by
    unfold NoExternalRefs
    decide
  exact ⟨by decide, hext, hacy,
    kahn_topological_order.1 dagChain (by decide) hext hacy⟩

end Bux
